import Mathlib

/-!
Verification development for the transformation-graph builder of
open-component-model: the schema-to-DeclType translator
(bindings/go/cel/jsonschema), the CEL field-descriptor parser
(bindings/go/cel/parser), and the dependency-graph builder
(bindings/go/transform/graph/builder.go).

Go pointers are modelled as Option, Go maps as association lists iterated
in insertion order (map iteration order only affects list order of results,
never the computed sets or sums), Go uint64 sizes as Nat, and Go errors as
either message strings (parser) or a structured error inductive (builder).
Recursive JSON structures are modelled as mutual inductive families so that
every function is structural recursion and evaluates inside the kernel.
-/

/-! ## JSON-like runtime values (Go interface values seen by the parser) -/

mutual

/-- Model of a Go interface value as produced by yaml/json unmarshalling:
string, integer, float (payload irrelevant to the parser, which only
inspects the dynamic type), bool, nil, array, or string-keyed object. -/
inductive Value where
  | strV (s : String)
  | intV (n : Int)
  | floatV (mantissa : Int)
  | boolV (b : Bool)
  | nullV
  | arrV (items : ValueList)
  | objV (fields : VFields)

/-- List of values (a Go slice of interface values). -/
inductive ValueList where
  | nil
  | cons (head : Value) (tail : ValueList)

/-- String-keyed object fields (a Go map of interface values, in iteration
order). -/
inductive VFields where
  | nil
  | cons (name : String) (val : Value) (tail : VFields)

end

/-! ## CEL types (model of cel-go types as exposed through DeclType) -/

/-- Model of the cel-go type of an expression or field: the universal
dynamic type, scalar types, parameterized list/map types, the optional
wrapper, and named object types. -/
inductive CelType where
  | dyn
  | string
  | int
  | uint
  | double
  | boolT
  | bytes
  | timestamp
  | duration
  | list (elem : CelType)
  | mapT (key value : CelType)
  | opt (elem : CelType)
  | object (name : String)
deriving DecidableEq, Repr

/-- The display name of a CEL type, as returned by the cel-go String()
method; the builder compares this string against "dyn". -/
def CelType.typeString : CelType → String
  | .dyn => "dyn"
  | .string => "string"
  | .int => "int"
  | .uint => "uint"
  | .double => "double"
  | .boolT => "bool"
  | .bytes => "bytes"
  | .timestamp => "google.protobuf.Timestamp"
  | .duration => "google.protobuf.Duration"
  | .list e => "list(" ++ e.typeString ++ ")"
  | .mapT k v => "map(" ++ k.typeString ++ ", " ++ v.typeString ++ ")"
  | .opt e => "optional_type(" ++ e.typeString ++ ")"
  | .object n => n

/-- Modelled from the spec (the cel-go assignability relation used by the
expression type-checker, an external collaborator): a dynamic expected type
accepts anything, parameterized types are assignable componentwise, and
otherwise assignability is type equality. -/
def CelType.IsAssignableType : CelType → CelType → Bool
  | .dyn, _ => true
  | .list a, .list b => a.IsAssignableType b
  | .mapT k v, .mapT k2 v2 => k.IsAssignableType k2 && v.IsAssignableType v2
  | .opt a, .opt b => a.IsAssignableType b
  | t, f => t = f

/-! ## DeclType (bindings/go/cel/jsonschema declaration types) -/

mutual

/-- Modelled from the spec: the DeclType record of the schema translator
(its defining file is not under src; shape follows spec section 3 and the
uses in SchemaDeclType). A single record with a name, its CEL type, an
optional element/key type for lists and maps, declared object fields, the
derived maximum element count and the minimum serialized size in bytes. -/
inductive DeclType where
  | mk (name : String) (celType : CelType) (elemType : Option DeclType)
       (keyType : Option DeclType) (fields : List (String × DeclField))
       (maxElements : Nat) (minSerializedSize : Nat)

/-- Modelled from the spec: one declared object field: its type, whether it
is required, its enum values and whether a default value is present. -/
inductive DeclField where
  | mk (name : String) (typ : DeclType) (required : Bool)
       (enumValues : List Value) (hasDefault : Bool)

end

/-- The derived maximum element count of a DeclType. -/
def DeclType.MaxElements : DeclType → Nat
  | .mk _ _ _ _ _ me _ => me

/-- The minimum serialized size in bytes of a DeclType. -/
def DeclType.MinSerializedSize : DeclType → Nat
  | .mk _ _ _ _ _ _ ms => ms

/-- The CEL type a DeclType exposes to the expression checker. -/
def DeclType.celTypeOf : DeclType → CelType
  | .mk _ ct _ _ _ _ _ => ct

/-- The registered name of a DeclType. -/
def DeclType.nameOf : DeclType → String
  | .mk n _ _ _ _ _ _ => n

/-- The declared object fields of a DeclType. -/
def DeclType.fieldsOf : DeclType → List (String × DeclField)
  | .mk _ _ _ _ fs _ _ => fs

/-- Whether an object DeclType declares a field of the given name. -/
def DeclType.hasField (d : DeclType) (name : String) : Bool :=
  d.fieldsOf.any (fun p => p.1 = name)

/-- Replace the maximum element count of a DeclType (models the Go field
assignments following the constructor calls in SchemaDeclType). -/
def DeclType.setMaxElements : DeclType → Nat → DeclType
  | .mk n ct et kt fs _ ms, me => .mk n ct et kt fs me ms

/-- Replace the minimum serialized size of a DeclType. -/
def DeclType.setMinSerializedSize : DeclType → Nat → DeclType
  | .mk n ct et kt fs me _, ms => .mk n ct et kt fs me ms

/-- Modelled from the spec: minimum serialized size of a JSON string, two
bytes for the enclosing quotes. -/
def MinStringSize : Nat := 2

/-- Modelled from the spec: minimum serialized size of a JSON bool
(the four bytes of true). -/
def MinBoolSize : Nat := 4

/-- Modelled from the spec: minimum serialized size of a JSON number. -/
def MinNumberSize : Nat := 1

/-- Modelled from the spec: minimum serialized size of a JSON duration
string. -/
def MinDurationSizeJSON : Nat := 3

/-- Modelled from the spec: serialized size of a JSON date string. -/
def JSONDateSize : Nat := 12

/-- Modelled from the spec: minimum serialized size of a JSON date-time
string. -/
def MinDatetimeSizeJSON : Nat := 21

/-- Modelled from the spec: maximum serialized size of a JSON duration
string. -/
def MaxDurationSizeJSON : Nat := 32

/-- Modelled from the spec: maximum serialized size of a JSON date-time
string. -/
def MaxDatetimeSizeJSON : Nat := 32

/-- The configured global maximum payload size: 3 MiB (source constant
MaxRequestSizeBytes). -/
def MaxRequestSizeBytes : Nat := 3 * 1024 * 1024

/-- Modelled from the spec: constructor for a scalar DeclType with a given
minimum serialized size; the maximum element count starts at zero and is
assigned by the caller. -/
def NewSimpleTypeWithMinSize (name : String) (ct : CelType) (minSize : Nat) : DeclType :=
  .mk name ct none none [] 0 minSize

/-- Modelled from the spec: the string DeclType. -/
def StringType : DeclType := NewSimpleTypeWithMinSize "string" .string MinStringSize

/-- Modelled from the spec: the bool DeclType. -/
def BoolType : DeclType := NewSimpleTypeWithMinSize "bool" .boolT MinBoolSize

/-- Modelled from the spec: the int DeclType. -/
def IntType : DeclType := NewSimpleTypeWithMinSize "int" .int MinNumberSize

/-- Modelled from the spec: the double DeclType. -/
def DoubleType : DeclType := NewSimpleTypeWithMinSize "double" .double MinNumberSize

/-- Modelled from the spec: constructor for a list DeclType with the given
item type and maximum item count; minimum size 2 for the enclosing
brackets. -/
def NewListType (elem : DeclType) (maxItems : Nat) : DeclType :=
  .mk "list" (.list elem.celTypeOf) (some elem) none [] maxItems 2

/-- Modelled from the spec: constructor for a map DeclType with the given
key and value types and maximum entry count; minimum size 2 for the
enclosing braces. -/
def NewMapType (key value : DeclType) (maxProperties : Nat) : DeclType :=
  .mk "map" (.mapT key.celTypeOf value.celTypeOf) (some value) (some key) [] maxProperties 2

/-- Modelled from the spec: constructor for an object DeclType with the
given declared fields; the minimum serialized size is assigned by the
caller. -/
def NewObjectType (name : String) (fields : List (String × DeclField)) : DeclType :=
  .mk name (.object name) none none fields 0 2

/-- Modelled from the spec: constructor for one declared object field. -/
def NewDeclField (name : String) (typ : DeclType) (required : Bool)
    (enumValues : List Value) (hasDefault : Bool) : DeclField :=
  .mk name typ required enumValues hasDefault

/-- Modelled from the spec: field-name escaping for the typing environment.
The spec prescribes no escaping, so every name is accepted unchanged (the
upstream escaping of expression-language keywords does not affect any
claim). -/
def Escape (name : String) : Option String := some name

/-! ## JSON schema model (invopop jsonschema.Schema as used by the code) -/

mutual

/-- Model of the invopop JSON schema record, restricted to the fields the
translator and the parser read: type, format, ordered properties,
additional-properties, items, required names, enum, default presence,
numeric bounds, one-of/any-of unions and a not clause. -/
inductive JSchema where
  | mk (typ : String) (format : String) (properties : JProps)
       (additionalProperties : OAP) (items : OJS) (required : List String)
       (enum : List Value) (dflt : Option Value)
       (maxItems : Option Nat) (maxLength : Option Nat) (maxProperties : Option Nat)
       (oneOf : JSList) (anyOf : JSList) (notS : OJS)

/-- Ordered property map of a schema (nil and empty are observationally
identical for every function modelled here). -/
inductive JProps where
  | nil
  | cons (name : String) (s : JSchema) (tail : JProps)

/-- The additional-properties pointer of a schema: Go nil, the
distinguished TrueSchema or FalseSchema boolean sentinels, or a real
subschema. -/
inductive OAP where
  | noneAP
  | tru
  | fls
  | sch (s : JSchema)

/-- An optional schema pointer (items, not). -/
inductive OJS where
  | noneJS
  | someJS (s : JSchema)

/-- A list of subschemas (one-of or any-of members). -/
inductive JSList where
  | nil
  | cons (s : JSchema) (tail : JSList)

end

/-- The raw type field of a schema. -/
def JSchema.typ : JSchema → String
  | .mk t _ _ _ _ _ _ _ _ _ _ _ _ _ => t

/-- The raw format field of a schema. -/
def JSchema.format : JSchema → String
  | .mk _ f _ _ _ _ _ _ _ _ _ _ _ _ => f

/-- The raw properties of a schema. -/
def JSchema.properties : JSchema → JProps
  | .mk _ _ p _ _ _ _ _ _ _ _ _ _ _ => p

/-- The raw additional-properties pointer of a schema. -/
def JSchema.additionalProperties : JSchema → OAP
  | .mk _ _ _ ap _ _ _ _ _ _ _ _ _ _ => ap

/-- The raw items pointer of a schema. -/
def JSchema.items : JSchema → OJS
  | .mk _ _ _ _ it _ _ _ _ _ _ _ _ _ => it

/-- The raw required list of a schema. -/
def JSchema.required : JSchema → List String
  | .mk _ _ _ _ _ r _ _ _ _ _ _ _ _ => r

/-- The raw enum list of a schema. -/
def JSchema.enum : JSchema → List Value
  | .mk _ _ _ _ _ _ e _ _ _ _ _ _ _ => e

/-- The raw default pointer of a schema. -/
def JSchema.dflt : JSchema → Option Value
  | .mk _ _ _ _ _ _ _ d _ _ _ _ _ _ => d

/-- The raw max-items pointer of a schema. -/
def JSchema.maxItems : JSchema → Option Nat
  | .mk _ _ _ _ _ _ _ _ mi _ _ _ _ _ => mi

/-- The raw max-length pointer of a schema. -/
def JSchema.maxLength : JSchema → Option Nat
  | .mk _ _ _ _ _ _ _ _ _ ml _ _ _ _ => ml

/-- The raw max-properties pointer of a schema. -/
def JSchema.maxProperties : JSchema → Option Nat
  | .mk _ _ _ _ _ _ _ _ _ _ mp _ _ _ => mp

/-- The raw one-of list of a schema. -/
def JSchema.oneOf : JSchema → JSList
  | .mk _ _ _ _ _ _ _ _ _ _ _ o _ _ => o

/-- The raw any-of list of a schema. -/
def JSchema.anyOf : JSchema → JSList
  | .mk _ _ _ _ _ _ _ _ _ _ _ _ a _ => a

/-- The raw not pointer of a schema. -/
def JSchema.notS : JSchema → OJS
  | .mk _ _ _ _ _ _ _ _ _ _ _ _ _ n => n

/-- The schema value behind the TrueSchema sentinel: a schema with every
field empty (its hidden boolean flag is only read by Allows, which none of
the modelled functions call). -/
def trueJSchema : JSchema :=
  .mk "" "" .nil .noneAP .noneJS [] [] none none none none .nil .nil .noneJS

/-- Adaptor method MaxItems (adaptor.go lines 123 to 128): a nil pointer in
the underlying schema is replaced by a fresh pointer to zero, so the result
is never nil. -/
def maxItemsAdaptor (raw : Option Nat) : Option Nat :=
  match raw with
  | none => some 0
  | some v => some v

/-- Adaptor method MaxLength (adaptor.go lines 137 to 142): same
pointer-to-zero behaviour as MaxItems. -/
def maxLengthAdaptor (raw : Option Nat) : Option Nat :=
  match raw with
  | none => some 0
  | some v => some v

/-- Adaptor method MaxProperties (adaptor.go lines 151 to 156): same
pointer-to-zero behaviour as MaxItems. -/
def maxPropertiesAdaptor (raw : Option Nat) : Option Nat :=
  match raw with
  | none => some 0
  | some v => some v

/-- Adaptor method AdditionalProperties (adaptor.go lines 60 to 68): nil
for a nil pointer, nil for the FalseSchema sentinel, and the wrapped schema
otherwise (the TrueSchema sentinel is wrapped as a schema with empty
fields). -/
def OAP.adaptor : OAP → Option JSchema
  | .noneAP => none
  | .fls => none
  | .tru => some trueJSchema
  | .sch s => some s

/-- Whether the additional-properties pointer is Go nil. -/
def OAP.isNone : OAP → Bool
  | .noneAP => true
  | _ => false

/-- Whether the additional-properties pointer is the FalseSchema
sentinel. -/
def OAP.isFalseSchema : OAP → Bool
  | .fls => true
  | _ => false

/-- Whether the additional-properties pointer is the TrueSchema
sentinel. -/
def OAP.isTrueSchema : OAP → Bool
  | .tru => true
  | _ => false

/-- Whether a subschema list is empty. -/
def JSList.isNil : JSList → Bool
  | .nil => true
  | _ => false

/-- Lookup of a property schema by name. -/
def JProps.lookup : JProps → String → Option JSchema
  | .nil, _ => none
  | .cons name s tail, field => if name = field then some s else tail.lookup field

/-! ## Size estimation helpers (source file of SchemaDeclType) -/

/-- Source estimateMaxStringLengthPerRequest: the maximum string length
compatible with the format requirements of the schema. -/
def estimateMaxStringLengthPerRequest (s : JSchema) : Nat :=
  match s.format with
  | "duration" => MaxDurationSizeJSON
  | "date" => JSONDateSize
  | "date-time" => MaxDatetimeSizeJSON
  | _ => MaxRequestSizeBytes - 2

/-- Source estimateMaxStringEnumLength: the length of the longest string
enum value. -/
def estimateMaxStringEnumLength (s : JSchema) : Nat :=
  s.enum.foldl
    (fun acc v =>
      match v with
      | .strV str => if str.length > acc then str.length else acc
      | _ => acc)
    0

/-- Source estimateMaxArrayItemsFromMinSize: items of the given minimum
size that fit into one request, two bytes reserved for the brackets and one
separator byte per item. -/
def estimateMaxArrayItemsFromMinSize (minSize : Nat) : Nat :=
  (MaxRequestSizeBytes - 2) / (minSize + 1)

/-- Source estimateMaxAdditionalPropertiesFromMinSize: entries of the given
minimum value size plus six bytes of key overhead that fit into one
request. -/
def estimateMaxAdditionalPropertiesFromMinSize (minSize : Nat) : Nat :=
  (MaxRequestSizeBytes - 2) / (minSize + 6)

/-- Source estimateMaxElementsFromMaxLength: the user-provided max length
times four, bounding the UTF-8 byte expansion of a length given in code
points. The caller guarantees the max-length pointer is set. -/
def estimateMaxElementsFromMaxLength (s : JSchema) : Nat :=
  (maxLengthAdaptor s.maxLength).getD 0 * 4

/-! ## SchemaDeclType (source function SchemaDeclType) -/

mutual

/-- Source SchemaDeclType: converts a structural schema to a DeclType, or
none when the schema should not be exposed to the expression checker.
Transliterated case by case; the adaptor accessors model the Go pointer
methods. The Go map iteration over object properties is modelled in list
order (only the field-list order can differ, never the computed sizes). -/
def SchemaDeclType : JSchema → Option DeclType
  | .mk typ _fmt props ap items req _enum _dflt maxI _maxL _maxP _oneOf _anyOf _notS =>
    match typ with
    | "array" =>
      match items with
      | .someJS itemsSchema =>
        match SchemaDeclType itemsSchema with
        | none => none
        | some itemsType =>
          let maxItems : Nat :=
            match maxItemsAdaptor maxI with
            | some v => v
            | none => estimateMaxArrayItemsFromMinSize itemsType.MinSerializedSize
          some (NewListType itemsType maxItems)
      | .noneJS => none
    | "object" =>
      match ap with
      | .sch apSchema =>
        match SchemaDeclType apSchema with
        | some propsType =>
          let maxProperties : Nat :=
            match maxPropertiesAdaptor (JSchema.mk typ _fmt props ap items req _enum _dflt maxI _maxL _maxP _oneOf _anyOf _notS).maxProperties with
            | some v => v
            | none => estimateMaxAdditionalPropertiesFromMinSize propsType.MinSerializedSize
          some (NewMapType StringType propsType maxProperties)
        | none => none
      | .tru =>
        -- The adaptor wraps the TrueSchema sentinel as a schema with empty
        -- type, whose translation is nil, so the object branch returns nil.
        none
      | _ =>
        let folded := schemaDeclTypeProps props req
        some ((NewObjectType "object" folded.1).setMinSerializedSize (2 + folded.2))
    | "string" =>
      let s := JSchema.mk typ _fmt props ap items req _enum _dflt maxI _maxL _maxP _oneOf _anyOf _notS
      match _fmt with
      | "byte" =>
        let byteWithMaxLength := NewSimpleTypeWithMinSize "bytes" .bytes MinStringSize
        match maxLengthAdaptor _maxL with
        | some v => some (byteWithMaxLength.setMaxElements v)
        | none => some (byteWithMaxLength.setMaxElements (estimateMaxStringLengthPerRequest s))
      | "duration" =>
        some ((NewSimpleTypeWithMinSize "duration" .duration MinDurationSizeJSON).setMaxElements
          (estimateMaxStringLengthPerRequest s))
      | "date" =>
        some ((NewSimpleTypeWithMinSize "timestamp" .timestamp JSONDateSize).setMaxElements
          (estimateMaxStringLengthPerRequest s))
      | "date-time" =>
        some ((NewSimpleTypeWithMinSize "timestamp" .timestamp MinDatetimeSizeJSON).setMaxElements
          (estimateMaxStringLengthPerRequest s))
      | _ =>
        let strWithMaxLength := NewSimpleTypeWithMinSize "string" .string MinStringSize
        match maxLengthAdaptor _maxL with
        | some _ => some (strWithMaxLength.setMaxElements (estimateMaxElementsFromMaxLength s))
        | none =>
          if _enum.length > 0 then
            some (strWithMaxLength.setMaxElements (estimateMaxStringEnumLength s))
          else
            some (strWithMaxLength.setMaxElements (estimateMaxStringLengthPerRequest s))
    | "boolean" => some BoolType
    | "number" => some DoubleType
    | "integer" => some IntType
    | _ => none

/-- Source SchemaDeclType, object-properties loop: translates every
property, collecting the declared fields (a property is dropped when its
translation is nil or its name fails escaping) and the summed minimum-size
contribution of required properties without a default. -/
def schemaDeclTypeProps : JProps → List String → (List (String × DeclField) × Nat)
  | .nil, _ => ([], 0)
  | .cons name prop tail, required =>
    let rest := schemaDeclTypeProps tail required
    match SchemaDeclType prop with
    | none => rest
    | some fieldType =>
      let fields :=
        match Escape name with
        | some propName =>
          (propName, NewDeclField propName fieldType (required.contains name)
            prop.enum prop.dflt.isSome) :: rest.1
        | none => rest.1
      let size :=
        if required.contains name && prop.dflt.isNone then
          rest.2 + name.length + fieldType.MinSerializedSize + 4
        else
          rest.2
      (fields, size)

end

/-! ## String helpers (model of Go strings functions used by the parser) -/

/-- Whitespace as trimmed by the expression scanner. -/
def isSpaceChar (c : Char) : Bool :=
  c = ' ' || c = '\t' || c = '\n' || c = '\r'

/-- Trim of leading and trailing whitespace (Go strings.TrimSpace). -/
def strTrim (s : String) : String :=
  ⟨(((s.data.dropWhile isSpaceChar).reverse.dropWhile isSpaceChar).reverse)⟩

/-- Data-level model of Go strings.HasPrefix. -/
def strStartsWith (s marker : String) : Bool :=
  marker.data.isPrefixOf s.data

/-- Data-level model of Go strings.HasSuffix. -/
def strEndsWith (s marker : String) : Bool :=
  marker.data.isSuffixOf s.data

/-- Data-level model of Go strings.Contains for one character. -/
def strContainsChar (s : String) (c : Char) : Bool :=
  s.data.contains c

/-- Drop of a leading marker if present (Go strings.TrimPrefix). -/
def trimPre (s marker : String) : String :=
  if strStartsWith s marker then ⟨s.data.drop marker.length⟩ else s

/-- Drop of a trailing marker if present (Go strings.TrimSuffix). -/
def trimSuf (s marker : String) : String :=
  if strEndsWith s marker then ⟨s.data.take (s.length - marker.length)⟩ else s

/-- Characters escaped by the Go quoted formatting verb, restricted to the
escapes exercised by field names. -/
def needsEscape (c : Char) : Bool :=
  c = '"' || c = '\\' || c = '\n' || c = '\t' || c = '\r'

/-- Escape of one character for the Go quoted formatting verb. -/
def escChar (c : Char) : List Char :=
  if c = '"' then ['\\', '"']
  else if c = '\\' then ['\\', '\\']
  else if c = '\n' then ['\\', 'n']
  else if c = '\t' then ['\\', 't']
  else if c = '\r' then ['\\', 'r']
  else [c]

/-- Model of the Go quoted formatting verb for strings (fmt %q via
strconv.Quote), restricted to the escapes exercised by field names. -/
def goQuote (s : String) : String :=
  "\"" ++ (⟨s.data.foldr (fun c acc => escChar c ++ acc) []⟩ : String) ++ "\""

/-! ## Embedded-expression scanning (cel/parser helpers, modelled) -/

/-- Modelled from the spec (the fragment scanner of the parser package is
not under src): left-to-right scan of a string collecting the contents of
every embedded wrapper, opened by a dollar-brace and closed by the next
closing brace; an unterminated wrapper yields no fragment. The second
argument is the buffer of an open wrapper, the third the collected
fragments in reverse. -/
def scanExprs : List Char → Option (List Char) → Bool → List String → List String
  | [], _, _, acc => acc.reverse
  | c :: rest, some buf, _, acc =>
    if c = '\x7d' then scanExprs rest none false (String.mk buf.reverse :: acc)
    else scanExprs rest (some (c :: buf)) false acc
  | c :: rest, none, sawDollar, acc =>
    if sawDollar && c = '\x7b' then scanExprs rest (some []) false acc
    else scanExprs rest none (c = '$') acc

/-- Modelled from the spec: extraction of every embedded expression
fragment of a string field value. -/
def extractExpressions (s : String) : List String :=
  scanExprs s.data none false []

/-- Modelled from the spec: a field value is a standalone expression when
its whole trimmed value is exactly one embedded expression wrapper with
nothing else. -/
def isStandaloneExpression (s : String) : Bool :=
  let t := strTrim s
  match extractExpressions t with
  | [e] => t = "$\x7b" ++ e ++ "\x7d"
  | _ => false

/-! ## Field descriptors (cel/parser data model) -/

/-- One extracted expression: its source string and its checked form,
which the parser always leaves unset. -/
structure Expression where
  Str : String
  AST : Option Unit
deriving DecidableEq, Repr

/-- One parsed field: the expressions it embeds, the expected CEL type,
the constructed path, and whether the whole field is one standalone
expression. -/
structure FieldDescriptor where
  Expressions : List Expression
  ExpectedType : CelType
  Path : String
  StandaloneExpression : Bool
deriving DecidableEq, Repr

/-- The any type accepted from permissive additional-properties (source
constant schemaTypeAny). -/
def schemaTypeAny : String := "any"

/-- Source getCelType: the CEL type of a schema through the declaration
translator, the dynamic type when the schema is nil or not exposed. -/
def getCelType (schema : Option JSchema) : CelType :=
  match schema with
  | none => .dyn
  | some s =>
    match SchemaDeclType s with
    | none => .dyn
    | some declType => declType.celTypeOf

/-- Source collectTypesFromSubSchemas, one step: inject object for
structural constraints, then collect a declared type, without
duplicates. -/
def collectTypesStep (acc : List String) (requiredLen : Nat) (hasNot : Bool)
    (typ : String) : List String :=
  let acc1 :=
    if (requiredLen > 0 || hasNot) && !acc.contains "object" then
      acc ++ ["object"]
    else acc
  if typ ≠ "" && !acc1.contains typ then acc1 ++ [typ] else acc1

/-- Source collectTypesFromSubSchemas: the declared types of a list of
subschemas, with object injected for members carrying required fields or a
not clause. -/
def collectTypesFromSubSchemas : JSList → List String → List String
  | .nil, acc => acc
  | .cons sub tail, acc =>
    collectTypesFromSubSchemas tail
      (collectTypesStep acc sub.required.length (match sub.notS with | .someJS _ => true | .noneJS => false) sub.typ)

/-- Source handleCompositeSchemas: the collected types of a one-of, else of
an any-of, when nonempty. -/
def handleCompositeSchemas (s : JSchema) : Option (List String) :=
  match s.oneOf with
  | .cons _ _ =>
    match collectTypesFromSubSchemas s.oneOf [] with
    | [] =>
      (match s.anyOf with
       | .cons _ _ =>
         (match collectTypesFromSubSchemas s.anyOf [] with
          | [] => none
          | ts => some ts)
       | .nil => none)
    | ts => some ts
  | .nil =>
    match s.anyOf with
    | .cons _ _ =>
      (match collectTypesFromSubSchemas s.anyOf [] with
       | [] => none
       | ts => some ts)
    | .nil => none

/-- Source getExpectedTypes: composite types, else the direct declared
type, else any for a TrueSchema additional-properties, else an error. -/
def getExpectedTypes (s : JSchema) : Except String (List String) :=
  match handleCompositeSchemas s with
  | some ts => .ok ts
  | none =>
    if s.typ ≠ "" then .ok [s.typ]
    else if s.additionalProperties.isTrueSchema then .ok [schemaTypeAny]
    else .error "unknown schema type"

/-- Source validateSchema: the schema must be non-nil and carry at least a
type, a one-of, an any-of or an additional-properties pointer. -/
def validateSchema (schema : Option JSchema) (path : String) : Except String Unit :=
  match schema with
  | none => .error ("schema is nil for path " ++ path)
  | some s =>
    if s.typ.length = 0 && s.oneOf.isNil && s.anyOf.isNil && s.additionalProperties.isNone then
      .error ("schema at path " ++ path ++ " has no valid type, OneOf, AnyOf, or AdditionalProperties")
    else .ok ()

/-- Source joinPathAndFieldName: appends a field name to a path, using a
bracket-quoted segment for empty or dot-containing names so a literal dot
is never conflated with nesting. -/
def joinPathAndFieldName (path fieldName : String) : String :=
  if fieldName = "" || strContainsChar fieldName '.' then
    path ++ "[" ++ goQuote fieldName ++ "]"
  else if path = "" then fieldName
  else path ++ "." ++ fieldName

/-- Source getFieldSchema: the declared property schema, else the
TrueSchema additional-properties, else an error. -/
def getFieldSchema (s : JSchema) (field : String) : Except String JSchema :=
  match s.properties.lookup field with
  | some fieldSchema => .ok fieldSchema
  | none =>
    if s.additionalProperties.isTrueSchema then .ok trueJSchema
    else .error ("schema not found for field " ++ field)

/-- Source getArrayItemSchema: the items schema, else an error (the second
Go branch re-testing items is unreachable and not modelled). -/
def getArrayItemSchema (s : JSchema) (path : String) : Except String JSchema :=
  match s.items with
  | .someJS it => .ok it
  | .noneJS => .error ("invalid array schema for path " ++ path ++ ": neither Items.Schema nor Properties are defined")

/-- Source isInteger: the Go switch lists int, int8, int32 and int64; the
single integer constructor of the value model covers them. -/
def isInteger : Value → Bool
  | .intV _ => true
  | _ => false

/-- Source isFloat. -/
def isFloat : Value → Bool
  | .floatV _ => true
  | _ => false

/-- Source isNumber. -/
def isNumber (v : Value) : Bool :=
  isInteger v || isFloat v

/-- Source getSchemaTypeName: the schema type name of a Go value; the
default branch prints the Go type name, reached only by floats here. -/
def getSchemaTypeName : Value → String
  | .boolV _ => "boolean"
  | .intV _ => "integer"
  | .floatV _ => "float64"
  | .strV _ => "string"
  | .nullV => "<nil>"
  | .arrV _ => "[]interface"
  | .objV _ => "map[string]interface"

/-- Rendering of an expected-type list in error messages (Go
strings.Join with the or separator). -/
def joinTypes (ets : List String) : String :=
  String.intercalate " or " ets

/-- Source parseScalarTypes, match of one expected type name against a
scalar value. -/
def scalarMatches (v : Value) (expected : String) : Bool :=
  match expected with
  | "number" => isNumber v
  | "int" => isInteger v
  | "integer" => isInteger v
  | "boolean" => (match v with | .boolV _ => true | _ => false)
  | "bool" => (match v with | .boolV _ => true | _ => false)
  | _ => false

/-- Source parseScalarTypes: any-typed fields skip validation; otherwise
the value must match one expected scalar type. -/
def parseScalarTypes (v : Value) (path : String) (expectedTypes : List String) :
    Except String (List FieldDescriptor) :=
  if expectedTypes.contains "any" then .ok []
  else if expectedTypes.any (scalarMatches v) then .ok []
  else .error ("expected " ++ joinTypes expectedTypes ++ " type for path " ++ path ++ ", got " ++ getSchemaTypeName v)

/-- Source parseString: a standalone expression yields one standalone
descriptor typed by the schema; otherwise the field must be allowed to be
a string, and any embedded fragments yield one string-typed template
descriptor. -/
def parseString (field : String) (schema : Option JSchema) (path : String)
    (expectedTypes : List String) : Except String (List FieldDescriptor) :=
  if isStandaloneExpression field then
    let expectedType := getCelType schema
    let expr := trimSuf (trimPre field "$\x7b") "\x7d"
    .ok [⟨[⟨expr, none⟩], expectedType, path, true⟩]
  else if !(expectedTypes.contains "string") && !(expectedTypes.contains schemaTypeAny) then
    .error ("expected " ++ joinTypes expectedTypes ++ " type for path " ++ path ++ ", got string")
  else
    let expressions := extractExpressions field
    let exprs := expressions.map (fun e => Expression.mk e none)
    if expressions.length > 0 then
      .ok [⟨exprs, .string, path, false⟩]
    else
      .ok []

mutual

/-- Source parseResource: depth-first recursive walk over a value against
its schema, validating shapes and collecting field descriptors. The object
and array cases carry the type guards of parseObject and parseArray and
delegate the per-entry loops to the two loop functions below. -/
def parseResource : Value → Option JSchema → String → Except String (List FieldDescriptor)
  | resource, schema, path =>
    match validateSchema schema path with
    | .error e => .error e
    | .ok _ =>
      match schema with
      | none => .error ("schema is nil for path " ++ path)
      | some s =>
        match getExpectedTypes s with
        | .error e => .error e
        | .ok expectedTypes =>
          match resource with
          | .objV fields =>
            -- parseObject, shape guard
            if !(expectedTypes.contains "object") && s.additionalProperties.isFalseSchema then
              .error ("expected " ++ joinTypes expectedTypes ++ " type for path " ++ path ++ ", got object")
            else parseObjectFields fields s path
          | .arrV items =>
            -- parseArray, shape guard and item schema resolution
            if !(expectedTypes.contains "array") then
              .error ("expected " ++ joinTypes expectedTypes ++ " type for path " ++ path ++ ", got array")
            else
              match getArrayItemSchema s path with
              | .error e => .error e
              | .ok itemSchema => parseArrayItems items itemSchema path 0
          | .strV f => parseString f (some s) path expectedTypes
          | .nullV => .ok []
          | v => parseScalarTypes v path expectedTypes

/-- Source parseObject, per-field loop: resolve every present key to a
child schema and recurse at the joined path. -/
def parseObjectFields : VFields → JSchema → String → Except String (List FieldDescriptor)
  | .nil, _, _ => .ok []
  | .cons fieldName value tail, s, path =>
    match getFieldSchema s fieldName with
    | .error e => .error ("error getting field schema for path " ++ path ++ "." ++ fieldName ++ ": " ++ e)
    | .ok fieldSchema =>
      match parseResource value (some fieldSchema) (joinPathAndFieldName path fieldName) with
      | .error e => .error e
      | .ok fieldExpressions =>
        match parseObjectFields tail s path with
        | .error e => .error e
        | .ok rest => .ok (fieldExpressions ++ rest)

/-- Source parseArray, per-item loop: recurse on every element at the
indexed path. -/
def parseArrayItems : ValueList → JSchema → String → Nat → Except String (List FieldDescriptor)
  | .nil, _, _, _ => .ok []
  | .cons item tail, itemSchema, path, i =>
    match parseResource item (some itemSchema) (path ++ "[" ++ toString i ++ "]") with
    | .error e => .error e
    | .ok itemExpressions =>
      match parseArrayItems tail itemSchema path (i + 1) with
      | .error e => .error e
      | .ok rest => .ok (itemExpressions ++ rest)

end

/-- Source ParseResource: entry point on a top-level object value. -/
def ParseResource (resource : VFields) (resourceSchema : Option JSchema) :
    Except String (List FieldDescriptor) :=
  parseResource (.objV resource) resourceSchema ""

/-! ## Builder errors (transform/graph/builder.go error taxonomy) -/

/-- Structured model of the errors of the graph builder; the Go code wraps
plain error strings, modelled here as constructors carrying the data the
corresponding message names. -/
inductive BuildErr where
  | duplicateID (id : String)
  | namingErr
  | unknownResources (resources : List String)
  | unknownFunctions (functions : List String)
  | vertexExists (v : String)
  | selfLoop (v : String)
  | missingVertex (v : String)
  | cycleErr
  | checkErr (expression path : String)
  | unwrapHint (resourceID path expression : String) (output expected : CelType)
  | typeMismatch (resourceID path expression : String) (output expected : CelType)
deriving DecidableEq, Repr

/-- Modelled from the spec: the result of the checker used by
parseAndCheckCELExpression (cel-go parse and check, an external
collaborator): an expression either fails to check or carries a static
output type. -/
structure GExpr where
  Str : String
  refs : List String
  calls : List String
  outputType : Option CelType
deriving DecidableEq, Repr

/-- Source parser.ResourceVariableKind: static or dynamic classification of
a template variable. -/
inductive ResourceVariableKind where
  | static
  | dynamic
deriving DecidableEq, Repr

/-- Source parser.TransformationField as read by the builder: the
classification, the embedded expressions, the expected type and the path of
the owning field descriptor. -/
structure GField where
  Kind : ResourceVariableKind
  Expressions : List GExpr
  ExpectedType : CelType
  Path : String
deriving DecidableEq, Repr

/-- Source meta.TransformationMeta as read by the builder. -/
structure TransformationMeta where
  ID : String
deriving DecidableEq, Repr

/-- Source graph.Transformation: the node metadata, its template
variables, its accumulated dependencies and its declaration order. -/
structure GTransformation where
  meta : TransformationMeta
  vars : List GField
  dependencies : List String
  order : Nat
deriving DecidableEq, Repr

/-- One transformation of the graph definition after the typed conversion
of buildTGTransformation: its metadata and its parsed template variables
(the plugin-driven schema loading and spec parsing are external input
here). -/
structure RawTransformation where
  meta : TransformationMeta
  vars : List GField
deriving DecidableEq, Repr

/-! ## Expression inspection (cel/ast inspector, modelled) -/

/-- Modelled from the spec: the inspection report of one expression: the
referenced declared resources, the unknown resource references and the
unknown function calls. -/
structure InspectionResult where
  ResourceDependencies : List String
  UnknownResources : List String
  UnknownFunctions : List String
deriving DecidableEq, Repr

/-- Modelled from the spec (the cel/ast inspector is not under src):
partition the identifiers referenced by an expression into declared
resources and unknown references, and the called functions into the
permitted vocabulary and unknown functions. -/
def Inspect (e : GExpr) (resourceNames : List String) (allowedFunctions : List String) :
    InspectionResult :=
  ⟨e.refs.filter (fun r => resourceNames.contains r),
   e.refs.filter (fun r => !resourceNames.contains r),
   e.calls.filter (fun c => !allowedFunctions.contains c)⟩

/-- Source extractDependencies, dependency-collection loop: keep every
declared reference other than the reserved schema pseudo-resource, without
duplicates; any such reference makes the expression dynamic. -/
def collectDeps : List String → List String → Bool → (List String × Bool)
  | [], acc, isStatic => (acc, isStatic)
  | r :: rest, acc, isStatic =>
    if r ≠ "schema" && !acc.contains r then collectDeps rest (acc ++ [r]) false
    else collectDeps rest acc isStatic

/-- Source extractDependencies: inspect the expression, fail on unknown
resources or unknown functions naming the offenders, and otherwise return
the referenced declared resources (the reserved schema pseudo-resource
excluded) with the static flag. -/
def extractDependencies (allowedFunctions : List String) (e : GExpr)
    (resourceNames : List String) : Except BuildErr (List String × Bool) :=
  let inspectionResult := Inspect e resourceNames allowedFunctions
  let deps := collectDeps inspectionResult.ResourceDependencies [] true
  if !inspectionResult.UnknownResources.isEmpty then
    .error (.unknownResources inspectionResult.UnknownResources)
  else if !inspectionResult.UnknownFunctions.isEmpty then
    .error (.unknownFunctions inspectionResult.UnknownFunctions)
  else
    .ok deps

/-! ## Directed acyclic graph (bindings/go/dag, modelled) -/

/-- Modelled from the spec: the directed graph of the builder: the vertex
list with the declaration-order attribute, in insertion order, and the edge
list as child-to-parent pairs. -/
structure DAGm where
  vertices : List (String × Nat)
  edges : List (String × String)
deriving DecidableEq, Repr

/-- The vertex identifiers of a graph, in insertion order. -/
def DAGm.ids (g : DAGm) : List String :=
  g.vertices.map Prod.fst

/-- The empty graph. -/
def DAGm.empty : DAGm := ⟨[], []⟩

/-- Modelled from the spec: vertex insertion; a duplicate vertex is an
error. -/
def DAGm.AddVertex (g : DAGm) (v : String) (order : Nat) : Except BuildErr DAGm :=
  if g.ids.contains v then .error (.vertexExists v)
  else .ok ⟨g.vertices ++ [(v, order)], g.edges⟩

/-- Modelled from the spec: edge insertion from a child to a parent it
depends on; self-loops are rejected, both endpoints must exist, and an
existing edge is kept once (the builder adds one edge per referencing
expression and the repository test expects repeated references to
succeed). -/
def DAGm.AddEdge (g : DAGm) (frm dst : String) : Except BuildErr DAGm :=
  if frm = dst then .error (.selfLoop frm)
  else if !g.ids.contains frm then .error (.missingVertex frm)
  else if !g.ids.contains dst then .error (.missingVertex dst)
  else if g.edges.contains (frm, dst) then .ok g
  else .ok ⟨g.vertices, g.edges ++ [(frm, dst)]⟩

/-- Kahn-style selection: the first remaining vertex all of whose parents
are already emitted. -/
def topoPick (emitted remaining : List String) (edges : List (String × String)) :
    Option String :=
  remaining.find? (fun v => edges.all (fun e => e.1 ≠ v || emitted.contains e.2))

/-- Modelled from the spec: Kahn-style topological ordering loop; when no
remaining vertex has all parents emitted, the graph has a cycle. -/
def topoLoop : Nat → List String → List String → List (String × String) →
    Except BuildErr (List String)
  | 0, emitted, remaining, _ =>
    if remaining.isEmpty then .ok emitted else .error .cycleErr
  | fuel + 1, emitted, remaining, edges =>
    if remaining.isEmpty then .ok emitted
    else
      match topoPick emitted remaining edges with
      | none => .error .cycleErr
      | some v => topoLoop fuel (emitted ++ [v]) (remaining.erase v) edges

/-- Modelled from the spec: topological order of the graph, parents before
children, ties broken by declaration order (the vertex insertion order);
fails on a cycle. -/
def DAGm.TopologicalSort (g : DAGm) : Except BuildErr (List String) :=
  topoLoop g.ids.length [] g.ids g.edges

/-! ## Graph builder (transform/graph/builder.go) -/

/-- Source Graph: the built graph, its transformations and the computed
topological order. -/
structure GraphResult where
  DAG : DAGm
  Transformations : List GTransformation
  TopologicalOrder : List String
deriving DecidableEq, Repr

/-- Source NewTransferGraph, first loop: build each transformation with
its declaration order and fail on a duplicate identifier. -/
def collectTransformations : List RawTransformation → Nat → List GTransformation →
    Except BuildErr (List GTransformation)
  | [], _, acc => .ok acc
  | r :: rest, order, acc =>
    if (acc.map (fun t => t.meta.ID)).contains r.meta.ID then
      .error (.duplicateID r.meta.ID)
    else
      collectTransformations rest (order + 1) (acc ++ [⟨r.meta, r.vars, [], order⟩])

/-- The transformations a raw list collects when no identifier is
duplicated, each with its declaration index. -/
def enumFrom : Nat → List RawTransformation → List GTransformation
  | _, [] => []
  | n, r :: rest => ⟨r.meta, r.vars, [], n⟩ :: enumFrom (n + 1) rest

/-- Source buildDependencyGraph, vertex loop: one vertex per
transformation, carrying the declaration order attribute. -/
def addVerticesLoop : List GTransformation → DAGm → Except BuildErr DAGm
  | [], g => .ok g
  | t :: rest, g =>
    match g.AddVertex t.meta.ID t.order with
    | .error e => .error e
    | .ok g2 => addVerticesLoop rest g2

/-- Source buildDependencyGraph, innermost loop: one edge from the child
to every extracted dependency. -/
def addEdgesForDeps : List String → String → DAGm → Except BuildErr DAGm
  | [], _, g => .ok g
  | dep :: rest, child, g =>
    match g.AddEdge child dep with
    | .error e => .error e
    | .ok g2 => addEdgesForDeps rest child g2

/-- Source buildDependencyGraph, per-expression loop: extract the
dependencies of every expression of a template variable and add the edges
(the static-to-dynamic flip of the variable and the dependency bookkeeping
on the node, builder.go lines 268 to 277, update per-node metadata that no
later stage of the builder reads and are not modelled). -/
def addEdgesForExprs : List GExpr → List String → List String → String → DAGm →
    Except BuildErr DAGm
  | [], _, _, _, g => .ok g
  | e :: rest, allowedFunctions, resourceNames, child, g =>
    match extractDependencies allowedFunctions e resourceNames with
    | .error err => .error err
    | .ok deps =>
      match addEdgesForDeps deps.1 child g with
      | .error err => .error err
      | .ok g2 => addEdgesForExprs rest allowedFunctions resourceNames child g2

/-- Source buildDependencyGraph, per-variable loop. -/
def addEdgesForFields : List GField → List String → List String → String → DAGm →
    Except BuildErr DAGm
  | [], _, _, _, g => .ok g
  | f :: rest, allowedFunctions, resourceNames, child, g =>
    match addEdgesForExprs f.Expressions allowedFunctions resourceNames child g with
    | .error err => .error err
    | .ok g2 => addEdgesForFields rest allowedFunctions resourceNames child g2

/-- Source buildDependencyGraph, per-transformation loop. -/
def addEdgesLoop : List GTransformation → List String → List String → DAGm →
    Except BuildErr DAGm
  | [], _, _, g => .ok g
  | t :: rest, allowedFunctions, resourceNames, g =>
    match addEdgesForFields t.vars allowedFunctions resourceNames t.meta.ID g with
    | .error err => .error err
    | .ok g2 => addEdgesLoop rest allowedFunctions resourceNames g2

/-- Source buildDependencyGraph: seed one vertex per transformation, allow
references to every transformation plus the reserved schema
pseudo-resource, then add one edge per extracted dependency. The Go map
iteration is modelled in declaration order; the vertex and edge sets are
iteration-order independent. -/
def buildDependencyGraph (allowedFunctions : List String)
    (transformations : List GTransformation) : Except BuildErr DAGm :=
  let transformationNames := transformations.map (fun t => t.meta.ID) ++ ["schema"]
  match addVerticesLoop transformations DAGm.empty with
  | .error e => .error e
  | .ok g => addEdgesLoop transformations allowedFunctions transformationNames g

/-- Modelled from the spec: the optional-unwrapping hint test of the
environment package (not under src): the mismatch would become a match
after unwrapping the optional wrapper of the expression output, as the
suggested default-value escape does. -/
def WouldMatchIfUnwrapped (output expected : CelType) : Bool :=
  match output with
  | .opt inner => expected.IsAssignableType inner
  | _ => false

/-- Source validateExpressionType: accept an assignable output, accept the
universal dynamic output without comparison, surface an unwrap hint when
unwrapping an optional would fix the mismatch, and otherwise fail with a
type mismatch naming the resource, the path and both types. -/
def validateExpressionType (outputType expectedType : CelType)
    (expression resourceID path : String) : Except BuildErr Unit :=
  if expectedType.IsAssignableType outputType then .ok ()
  else if outputType.typeString = "dyn" then .ok ()
  else if WouldMatchIfUnwrapped outputType expectedType then
    .error (.unwrapHint resourceID path expression outputType expectedType)
  else
    .error (.typeMismatch resourceID path expression outputType expectedType)

/-- Source parseAndCheckCELExpression: parse and type-check of one
expression against the typed environment, modelled by the checked output
type carried by the expression. -/
def parseAndCheckCELExpression (e : GExpr) (path : String) : Except BuildErr CelType :=
  match e.outputType with
  | some t => .ok t
  | none => .error (.checkErr e.Str path)

/-- Source validateTemplateExpressions, multi-expression loop: every
fragment of a template is validated against the expected type of the
field. -/
def validateExprList : List GExpr → CelType → String → String → Except BuildErr Unit
  | [], _, _, _ => .ok ()
  | e :: rest, expectedType, resourceID, path =>
    match parseAndCheckCELExpression e path with
    | .error err => .error err
    | .ok outputType =>
      match validateExpressionType outputType expectedType e.Str resourceID path with
      | .error err => .error err
      | .ok _ => validateExprList rest expectedType resourceID path

/-- Source validateTemplateExpressions: single expressions and template
fragments are type-checked and validated against the expected field
type. -/
def validateFieldsLoop : List GField → String → Except BuildErr Unit
  | [], _ => .ok ()
  | f :: rest, resourceID =>
    match f.Expressions with
    | [] => validateFieldsLoop rest resourceID
    | [e] =>
      (match parseAndCheckCELExpression e f.Path with
       | .error err => .error err
       | .ok outputType =>
         match validateExpressionType outputType f.ExpectedType e.Str resourceID f.Path with
         | .error err => .error err
         | .ok _ => validateFieldsLoop rest resourceID)
    | es =>
      (match validateExprList es f.ExpectedType resourceID f.Path with
       | .error err => .error err
       | .ok _ => validateFieldsLoop rest resourceID)

/-- Source validateNode via validateTemplateExpressions for one
transformation. -/
def validateNode (t : GTransformation) : Except BuildErr Unit :=
  validateFieldsLoop t.vars t.meta.ID

/-- Source NewTransferGraph, validation loop over all transformations. -/
def validateNodesLoop : List GTransformation → Except BuildErr Unit
  | [] => .ok ()
  | t :: rest =>
    match validateNode t with
    | .error err => .error err
    | .ok _ => validateNodesLoop rest

/-- Source NewTransferGraph with the naming-convention validator (not
under src and unspecified) and the dependency-graph construction passed as
parameters: build the transformations failing on duplicate identifiers,
validate naming, build the dependency graph, compute the topological
order, validate every node, and return the assembled graph. -/
def newTransferGraphWith (naming : List GTransformation → Except BuildErr Unit)
    (buildDep : List GTransformation → Except BuildErr DAGm)
    (raws : List RawTransformation) : Except BuildErr GraphResult :=
  match collectTransformations raws 0 [] with
  | .error e => .error e
  | .ok transformations =>
    match naming transformations with
    | .error e => .error e
    | .ok _ =>
      match buildDep transformations with
      | .error e => .error e
      | .ok dag =>
        match dag.TopologicalSort with
        | .error e => .error e
        | .ok topologicalOrder =>
          match validateNodesLoop transformations with
          | .error e => .error e
          | .ok _ => .ok ⟨dag, transformations, topologicalOrder⟩

/-- Source NewTransferGraph with the real dependency-graph construction. -/
def newTransferGraph (naming : List GTransformation → Except BuildErr Unit)
    (allowedFunctions : List String) (raws : List RawTransformation) :
    Except BuildErr GraphResult :=
  newTransferGraphWith naming (buildDependencyGraph allowedFunctions) raws

/-- The dependency relation a transformation list induces: the child
transformation declares an expression referencing the parent as a declared
resource other than the reserved schema pseudo-resource. -/
def depRel (ts : List GTransformation) (c p : String) : Prop :=
  ∃ t ∈ ts, t.meta.ID = c ∧
    ∃ f ∈ t.vars, ∃ e ∈ f.Expressions,
      p ∈ e.refs ∧ p ≠ "schema"

/-! ## Statement-level definitions for the claims -/

/-- The property list of a schema as a plain list. -/
def JProps.toList : JProps → List (String × JSchema)
  | .nil => []
  | .cons name s tail => (name, s) :: tail.toList

/-- The minimum-size contribution one declared property: required
properties lacking a default whose own translation is non-nil contribute
the name length plus the field minimum size plus four bytes of quoting
overhead, following the words of the specification. -/
def c5FieldContribution (name : String) (prop : JSchema) (required : List String) : Nat :=
  if required.contains name && prop.dflt.isNone && (SchemaDeclType prop).isSome then
    name.length +
      (match SchemaDeclType prop with
       | some d => d.MinSerializedSize
       | none => 0) + 4
  else 0

/-- The summed minimum-size contributions of a property list, following
the words of the specification. -/
def c5RequiredSum (props : List (String × JSchema)) (required : List String) : Nat :=
  (props.map (fun p => c5FieldContribution p.1 p.2 required)).sum

/-- Claim C5 as stated: every object schema with declared properties
translates to a DeclType whose minimum serialized size is 2 plus the
required-property contributions, with nil-translating properties omitted
from the fields. -/
def ClaimC5Prop : Prop :=
  ∀ s : JSchema, s.typ = "object" → s.properties ≠ JProps.nil →
    ∃ d, SchemaDeclType s = some d ∧
      d.MinSerializedSize = 2 + c5RequiredSum s.properties.toList s.required ∧
      ∀ np ∈ s.properties.toList, SchemaDeclType np.2 = none → d.hasField np.1 = false

/-- Claim C10 as stated: parsing a nil value yields no descriptors and no
error for every schema and path. -/
def ClaimC10Prop : Prop :=
  ∀ (schema : Option JSchema) (path : String), parseResource .nullV schema path = Except.ok []

/-- Well-formedness of the built dependency graph: vertex identifiers are
distinct and every edge joins two distinct existing vertices. -/
def DAGWellFormed (g : DAGm) : Prop :=
  g.ids.Nodup ∧ ∀ e ∈ g.edges, e.1 ∈ g.ids ∧ e.2 ∈ g.ids ∧ e.1 ≠ e.2

/-- A vertex order respects the edge list when every edge's parent occurs
in the order strictly before the child. -/
def respectsEdges (order : List String) (edges : List (String × String)) : Prop :=
  ∀ e ∈ edges, e.2 ∈ order ∧ e.1 ∈ order ∧ order.indexOf e.2 < order.indexOf e.1

/-! ## Helper lemmas -/

/-- Projection of a max-element update. -/
theorem maxElements_setMaxElements (d : DeclType) (n : Nat) :
    (d.setMaxElements n).MaxElements = n := by
  cases d; rfl

/-- Projection of a minimum-size update. -/
theorem minSize_setMinSerializedSize (d : DeclType) (n : Nat) :
    (d.setMinSerializedSize n).MinSerializedSize = n := by
  cases d; rfl

/-- Fields are unchanged by a minimum-size update. -/
theorem fieldsOf_setMinSerializedSize (d : DeclType) (n : Nat) :
    (d.setMinSerializedSize n).fieldsOf = d.fieldsOf := by
  cases d; rfl

/-- Associativity of string concatenation. -/
theorem strAppend_assoc (a b c : String) : a ++ b ++ c = a ++ (b ++ c) := by
  apply String.ext
  simp [String.data_append, List.append_assoc]

/-- Characters needing no escape pass through the escape fold
unchanged. -/
theorem escape_fold_id (l : List Char) (h : ∀ c ∈ l, needsEscape c = false) :
    l.foldr (fun c acc => escChar c ++ acc) [] = l := by
  induction l with
  | nil => rfl
  | cons c rest ih =>
    have hc : needsEscape c = false := h c (List.mem_cons_self c rest)
    have hrest := ih (fun x hx => h x (List.mem_cons_of_mem c hx))
    simp only [needsEscape, Bool.or_eq_false_iff, decide_eq_false_iff_not] at hc
    obtain ⟨⟨⟨⟨q1, q2⟩, q3⟩, q4⟩, q5⟩ := hc
    simp only [List.foldr_cons, hrest]
    unfold escChar
    rw [if_neg q1, if_neg q2, if_neg q3, if_neg q4, if_neg q5]
    rfl

/-- The Go quote of a string needing no escapes is the string wrapped in
double quotes. -/
theorem goQuote_eq_of_no_escape (s : String) (h : ∀ c ∈ s.data, needsEscape c = false) :
    goQuote s = "\"" ++ s ++ "\"" := by
  unfold goQuote
  rw [escape_fold_id s.data h]

/-! ## Claim C9 -/

/-- C9: for a parent path and field name, the constructed child path
appends a dot-separated segment for nonempty dot-free names (just the name
when the parent is empty), and a bracket-quoted segment when the name is
empty or contains a dot, so a literal dot in a field name is never
conflated with path nesting. -/
theorem joinPathAndFieldName_spec (path n : String) :
    (n ≠ "" → strContainsChar n '.' = false → path ≠ "" →
      joinPathAndFieldName path n = path ++ "." ++ n) ∧
    (n ≠ "" → strContainsChar n '.' = false → path = "" →
      joinPathAndFieldName path n = n) ∧
    ((n = "" ∨ strContainsChar n '.' = true) → (∀ c ∈ n.data, needsEscape c = false) →
      joinPathAndFieldName path n = path ++ "[\"" ++ n ++ "\"]") := by
  refine ⟨?_, ?_, ?_⟩
  · intro h1 h2 h3
    unfold joinPathAndFieldName
    rw [if_neg (by simp [h1, h2]), if_neg h3]
  · intro h1 h2 h3
    unfold joinPathAndFieldName
    rw [if_neg (by simp [h1, h2]), if_pos h3]
  · intro h1 h2
    unfold joinPathAndFieldName
    rw [if_pos (by rcases h1 with h | h <;> simp [h]), goQuote_eq_of_no_escape n h2]
    apply String.ext
    simp only [String.data_append, show "[".data = ['['] from rfl,
      show "\"".data = ['"'] from rfl, show "]".data = [']'] from rfl,
      show "[\"".data = ['[', '"'] from rfl, show "\"]".data = ['"', ']'] from rfl,
      List.append_assoc]
    simp

/-- Witness for C9 at concrete paths and names. -/
theorem joinPathAndFieldName_spec_witness :
    joinPathAndFieldName "spec" "component" = "spec.component" ∧
    joinPathAndFieldName "" "component" = "component" ∧
    joinPathAndFieldName "spec" "a.b" = "spec[\"a.b\"]" := by
  refine ⟨?_, ?_, ?_⟩
  · exact (joinPathAndFieldName_spec "spec" "component").1 (by decide) (by decide) (by decide)
  · exact (joinPathAndFieldName_spec "" "component").2.1 (by decide) (by decide) rfl
  · exact (joinPathAndFieldName_spec "spec" "a.b").2.2 (by decide) (by decide)

/-! ## Claim C8 -/

/-- C8: when the checked output type is not assignable to the expected
type, a dynamic output is accepted without comparison; a mismatch fixable
by unwrapping an optional fails with the unwrap hint naming the resource,
path, expression and both types; any other mismatch fails with a type
mismatch naming the same data. -/
theorem validateExpressionType_mismatch_policy (o e : CelType) (expr rid p : String)
    (h : e.IsAssignableType o = false) :
    (o.typeString = "dyn" → validateExpressionType o e expr rid p = .ok ()) ∧
    (o.typeString ≠ "dyn" → WouldMatchIfUnwrapped o e = true →
      validateExpressionType o e expr rid p = .error (.unwrapHint rid p expr o e)) ∧
    (o.typeString ≠ "dyn" → WouldMatchIfUnwrapped o e = false →
      validateExpressionType o e expr rid p = .error (.typeMismatch rid p expr o e)) := by
  unfold validateExpressionType
  refine ⟨?_, ?_, ?_⟩
  · intro hd
    rw [if_neg (by simp [h]), if_pos hd]
  · intro hd hw
    rw [if_neg (by simp [h]), if_neg hd, if_pos hw]
  · intro hd hw
    rw [if_neg (by simp [h]), if_neg hd, if_neg (by simp [hw])]

/-- Witness for C8: a string output against an integer field mismatches, an
optional string output against a string field surfaces the unwrap hint, and
a dynamic output is accepted. -/
theorem validateExpressionType_mismatch_policy_witness :
    validateExpressionType .string .int "self.x" "r" "spec.count" =
      .error (.typeMismatch "r" "spec.count" "self.x" .string .int) ∧
    validateExpressionType (.opt .string) .string "self.y" "r" "spec.name" =
      .error (.unwrapHint "r" "spec.name" "self.y" (.opt .string) .string) ∧
    validateExpressionType .dyn .int "self.z" "r" "spec.n" = .ok () := by
  refine ⟨?_, ?_, ?_⟩
  · exact (validateExpressionType_mismatch_policy .string .int "self.x" "r" "spec.count"
      (by decide)).2.2 (by decide) (by decide)
  · exact (validateExpressionType_mismatch_policy (.opt .string) .string "self.y" "r" "spec.name"
      (by decide)).2.1 (by decide) (by decide)
  · exact (validateExpressionType_mismatch_policy .dyn .int "self.z" "r" "spec.n"
      (by decide)).1 (by decide)

/-! ## Claim C4 -/

/-- C4: behaviour of the translator at the failing input: an array schema
of string items with no explicit max-items bound translates to a list
DeclType with a maximum element count of zero, because the adaptor turns
the absent bound into a pointer to zero and the minimum-size estimation
branch is unreachable; the claimed estimate at the item minimum size is
1048575, not zero. -/
theorem schemaDeclType_array_no_maxItems_behavior :
    (SchemaDeclType (JSchema.mk "array" "" .nil .noneAP
        (.someJS (JSchema.mk "string" "" .nil .noneAP .noneJS [] [] none none none none .nil .nil .noneJS))
        [] [] none none none none .nil .nil .noneJS)).map DeclType.MaxElements = some 0 ∧
    (SchemaDeclType (JSchema.mk "string" "" .nil .noneAP .noneJS [] [] none none none none .nil .nil .noneJS)).map
        DeclType.MinSerializedSize = some MinStringSize ∧
    estimateMaxArrayItemsFromMinSize MinStringSize = 1048575 ∧ (0 : Nat) ≠ 1048575 := by
  refine ⟨rfl, rfl, by decide, by decide⟩

/-! ## Claim C10 -/

/-- C10 as stated is false: parsing a nil value under a nil schema is an
error, not an empty descriptor list. -/
theorem parseResource_null_claim_false : ¬ ClaimC10Prop := by
  intro h
  have h2 := h none ""
  rw [show parseResource Value.nullV none "" = Except.error "schema is nil for path " from rfl] at h2
  exact Except.noConfusion h2

/-- C10 amended: for every schema that passes schema validation and
expected-type extraction, parsing a nil value yields an empty descriptor
list and no error; the nil leaf is never validated against the expected
type set. -/
theorem parseResource_null_ok (s : JSchema) (path : String) (ets : List String)
    (h1 : validateSchema (some s) path = .ok ())
    (h2 : getExpectedTypes s = .ok ets) :
    parseResource .nullV (some s) path = .ok [] := by
  simp only [parseResource, h1, h2]

/-- Witness for amended C10 at a boolean schema. -/
theorem parseResource_null_ok_witness :
    parseResource .nullV
      (some (JSchema.mk "boolean" "" .nil .noneAP .noneJS [] [] none none none none .nil .nil .noneJS))
      "spec.flag" = .ok [] :=
  parseResource_null_ok
    (JSchema.mk "boolean" "" .nil .noneAP .noneJS [] [] none none none none .nil .nil .noneJS)
    "spec.flag" ["boolean"] rfl rfl

/-! ## Claim C3 -/

/-- C3: every string schema with an explicit max-length bound and none of
the special formats translates to a DeclType whose maximum element count is
four times the bound (the bound counts code points, the element count
bounds UTF-8 bytes). -/
theorem schemaDeclType_string_maxLength (s : JSchema) (n : Nat)
    (htyp : s.typ = "string")
    (hfmt1 : s.format ≠ "byte") (hfmt2 : s.format ≠ "duration")
    (hfmt3 : s.format ≠ "date") (hfmt4 : s.format ≠ "date-time")
    (hlen : s.maxLength = some n) :
    ∃ d, SchemaDeclType s = some d ∧ d.MaxElements = 4 * n := by
  obtain ⟨typ, fmt, props, ap, items, req, enum, dflt, maxI, maxL, maxP, oneOf, anyOf, notS⟩ := s
  simp only [JSchema.typ] at htyp
  simp only [JSchema.format] at hfmt1 hfmt2 hfmt3 hfmt4
  simp only [JSchema.maxLength] at hlen
  subst htyp hlen
  have heq : SchemaDeclType (.mk "string" fmt props ap items req enum dflt maxI (some n) maxP oneOf anyOf notS) =
      some ((NewSimpleTypeWithMinSize "string" .string MinStringSize).setMaxElements
        (estimateMaxElementsFromMaxLength (.mk "string" fmt props ap items req enum dflt maxI (some n) maxP oneOf anyOf notS))) := by
    simp only [SchemaDeclType]
    simp [maxLengthAdaptor]
  refine ⟨_, heq, ?_⟩
  rw [maxElements_setMaxElements]
  simp [estimateMaxElementsFromMaxLength, maxLengthAdaptor, JSchema.maxLength, Nat.mul_comm]

/-- Witness for C3 at a plain string schema with max length ten. -/
theorem schemaDeclType_string_maxLength_witness :
    ∃ d, SchemaDeclType
        (JSchema.mk "string" "" .nil .noneAP .noneJS [] [] none none (some 10) none .nil .nil .noneJS) =
        some d ∧ d.MaxElements = 4 * 10 :=
  schemaDeclType_string_maxLength
    (JSchema.mk "string" "" .nil .noneAP .noneJS [] [] none none (some 10) none .nil .nil .noneJS)
    10 rfl (by decide) (by decide) (by decide) (by decide) rfl

/-! ## Claim C1 -/

/-- C1: a string field value that is exactly one embedded expression
yields exactly one standalone field descriptor whose expected type is the
declared type of the schema at that path (through the translator, dynamic
when the schema exposes no type); a string value containing embedded
fragments inside a larger string yields one non-standalone descriptor
whose expected type is string regardless of the fragments. -/
theorem parseString_descriptor_types (field : String) (schema : Option JSchema)
    (path : String) (ets : List String) :
    (isStandaloneExpression field = true →
      ∃ fd, parseString field schema path ets = .ok [fd] ∧
        fd.StandaloneExpression = true ∧ fd.ExpectedType = getCelType schema ∧
        fd.Expressions.length = 1) ∧
    (isStandaloneExpression field = false → extractExpressions field ≠ [] →
      (ets.contains "string" || ets.contains schemaTypeAny) = true →
      ∃ fd, parseString field schema path ets = .ok [fd] ∧
        fd.StandaloneExpression = false ∧ fd.ExpectedType = CelType.string ∧
        fd.Expressions = (extractExpressions field).map (fun e => Expression.mk e none)) := by
  constructor
  · intro h
    unfold parseString
    rw [if_pos h]
    exact ⟨_, rfl, rfl, rfl, rfl⟩
  · intro h h1 h2
    have hcond : (!(ets.contains "string") && !(ets.contains schemaTypeAny)) = false := by
      rw [← Bool.not_or, h2]
      rfl
    unfold parseString
    rw [if_neg (by simp [h]), if_neg (by simp only [hcond]; exact Bool.false_ne_true),
      if_pos (List.length_pos.mpr h1)]
    exact ⟨_, rfl, rfl, rfl, rfl⟩

/-- Witness for C1: the exact wrapper under an integer schema is standalone
and integer-typed; the partial embed under a string expectation is
non-standalone and string-typed. -/
theorem parseString_descriptor_types_witness :
    (∃ fd, parseString "$\x7ba.b\x7d"
        (some (JSchema.mk "integer" "" .nil .noneAP .noneJS [] [] none none none none .nil .nil .noneJS))
        "spec.count" ["integer"] = .ok [fd] ∧
      fd.StandaloneExpression = true ∧
      fd.ExpectedType = getCelType
        (some (JSchema.mk "integer" "" .nil .noneAP .noneJS [] [] none none none none .nil .nil .noneJS)) ∧
      fd.Expressions.length = 1) ∧
    (∃ fd, parseString "x-$\x7ba.b\x7d-y" none "spec.name" ["string"] = .ok [fd] ∧
      fd.StandaloneExpression = false ∧ fd.ExpectedType = CelType.string ∧
      fd.Expressions = (extractExpressions "x-$\x7ba.b\x7d-y").map (fun e => Expression.mk e none)) := by
  constructor
  · exact (parseString_descriptor_types "$\x7ba.b\x7d"
      (some (JSchema.mk "integer" "" .nil .noneAP .noneJS [] [] none none none none .nil .nil .noneJS))
      "spec.count" ["integer"]).1 (by decide)
  · exact (parseString_descriptor_types "x-$\x7ba.b\x7d-y" none "spec.name" ["string"]).2
      (by decide) (by decide) (by decide)

/-! ## Claim C7 -/

/-- Membership in the collected dependency list: the accumulator plus
every listed reference other than the reserved schema pseudo-resource. -/
theorem collectDeps_mem (l : List String) (acc : List String) (st : Bool) (d : String) :
    d ∈ (collectDeps l acc st).1 ↔ d ∈ acc ∨ (d ∈ l ∧ d ≠ "schema") := by
  induction l generalizing acc st with
  | nil => simp [collectDeps]
  | cons r rest ih =>
    unfold collectDeps
    by_cases h1 : r = "schema"
    · subst h1
      rw [if_neg (by simp)]
      rw [ih]
      simp only [List.mem_cons]
      constructor
      · rintro (h | ⟨h, hne⟩)
        · exact Or.inl h
        · exact Or.inr ⟨Or.inr h, hne⟩
      · rintro (h | ⟨h | h, hne⟩)
        · exact Or.inl h
        · exact absurd h hne
        · exact Or.inr ⟨h, hne⟩
    · by_cases h2 : r ∈ acc
      · rw [if_neg (by simp [h2])]
        rw [ih]
        simp only [List.mem_cons]
        constructor
        · rintro (h | ⟨h, hne⟩)
          · exact Or.inl h
          · exact Or.inr ⟨Or.inr h, hne⟩
        · rintro (h | ⟨h | h, hne⟩)
          · exact Or.inl h
          · exact Or.inl (h ▸ h2)
          · exact Or.inr ⟨h, hne⟩
      · rw [if_pos (by simp [h1, h2])]
        rw [ih]
        simp only [List.mem_append, List.mem_cons, List.not_mem_nil, or_false]
        constructor
        · rintro ((h | h) | ⟨h, hne⟩)
          · exact Or.inl h
          · exact Or.inr ⟨Or.inl h, h ▸ h1⟩
          · exact Or.inr ⟨Or.inr h, hne⟩
        · rintro (h | ⟨h | h, hne⟩)
          · exact Or.inl (Or.inl h)
          · exact Or.inl (Or.inr h)
          · exact Or.inr ⟨h, hne⟩

/-- The collected dependency list has no duplicates. -/
theorem collectDeps_nodup (l : List String) (acc : List String) (st : Bool)
    (h : acc.Nodup) : (collectDeps l acc st).1.Nodup := by
  induction l generalizing acc st with
  | nil => simpa [collectDeps] using h
  | cons r rest ih =>
    unfold collectDeps
    by_cases hg : (decide ¬r = "schema" && !acc.contains r) = true
    · rw [if_pos hg]
      refine ih _ _ ?_
      have hr : r ∉ acc := by
        simp only [Bool.and_eq_true, Bool.not_eq_true', decide_eq_true_eq] at hg
        simpa using hg.2
      simp [List.nodup_append, h, hr]
    · rw [if_neg hg]
      exact ih _ _ h

/-- C7: extraction of dependencies from an expression fails naming the
unknown resource references when any identifier is neither a declared node
nor the reserved schema pseudo-resource, fails naming the unknown
functions when any called function is outside the permitted vocabulary,
and otherwise returns exactly the set of referenced declared nodes with
the schema pseudo-resource excluded. -/
theorem extractDependencies_spec (allowed : List String) (e : GExpr) (names : List String) :
    (e.refs.filter (fun r => !names.contains r) ≠ [] →
      extractDependencies allowed e names =
        .error (.unknownResources (e.refs.filter (fun r => !names.contains r)))) ∧
    (e.refs.filter (fun r => !names.contains r) = [] →
      e.calls.filter (fun c => !allowed.contains c) ≠ [] →
      extractDependencies allowed e names =
        .error (.unknownFunctions (e.calls.filter (fun c => !allowed.contains c)))) ∧
    (e.refs.filter (fun r => !names.contains r) = [] →
      e.calls.filter (fun c => !allowed.contains c) = [] →
      ∃ deps isStatic, extractDependencies allowed e names = .ok (deps, isStatic) ∧
        (∀ d, d ∈ deps ↔ d ∈ e.refs ∧ d ≠ "schema") ∧ deps.Nodup) := by
  refine ⟨?_, ?_, ?_⟩
  · intro h
    unfold extractDependencies Inspect
    rw [if_pos (by simpa using h)]
  · intro h1 h2
    unfold extractDependencies Inspect
    rw [if_neg (by simpa using h1), if_pos (by simpa using h2)]
  · intro h1 h2
    have hall : ∀ r ∈ e.refs, names.contains r = true := by
      intro r hr
      have := List.filter_eq_nil_iff.mp h1 r hr
      simpa using this
    have hfull : e.refs.filter (fun r => names.contains r) = e.refs :=
      List.filter_eq_self.mpr hall
    unfold extractDependencies Inspect
    rw [if_neg (by simpa using h1), if_neg (by simpa using h2)]
    refine ⟨_, _, rfl, ?_, ?_⟩
    · intro d
      simp only [hfull]
      rw [collectDeps_mem]
      simp
    · simp only [hfull]
      exact collectDeps_nodup _ _ _ List.nodup_nil

/-- Witness for C7: a reference to a declared node plus the schema
pseudo-resource extracts exactly that node; an unknown reference and an
unknown function each fail naming the offender. -/
theorem extractDependencies_spec_witness :
    (∃ deps isStatic,
      extractDependencies ["upper"] ⟨"download1.spec.x", ["download1", "schema"], ["upper"], some .string⟩
        ["download1", "download2", "schema"] = .ok (deps, isStatic) ∧
      (∀ d, d ∈ deps ↔ d ∈ (["download1", "schema"] : List String) ∧ d ≠ "schema") ∧ deps.Nodup) ∧
    extractDependencies ["upper"] ⟨"nope.spec.x", ["nope"], [], some .string⟩
      ["download1", "schema"] = .error (.unknownResources ["nope"]) ∧
    extractDependencies ["upper"] ⟨"badfn(x)", ["download1"], ["badfn"], some .string⟩
      ["download1", "schema"] = .error (.unknownFunctions ["badfn"]) := by
  refine ⟨?_, ?_, ?_⟩
  · exact (extractDependencies_spec ["upper"]
      ⟨"download1.spec.x", ["download1", "schema"], ["upper"], some .string⟩
      ["download1", "download2", "schema"]).2.2 (by decide) (by decide)
  · exact (extractDependencies_spec ["upper"] ⟨"nope.spec.x", ["nope"], [], some .string⟩
      ["download1", "schema"]).1 (by decide)
  · exact (extractDependencies_spec ["upper"] ⟨"badfn(x)", ["download1"], ["badfn"], some .string⟩
      ["download1", "schema"]).2.1 (by decide) (by decide)

/-! ## Claim C5 -/

/-- The size accumulated by the object-properties loop equals the
specification formula: required properties lacking a default whose own
translation is non-nil contribute name length plus field minimum size plus
four. -/
theorem schemaDeclTypeProps_snd : ∀ (props : JProps) (req : List String),
    (schemaDeclTypeProps props req).2 = c5RequiredSum props.toList req
  | .nil, _ => rfl
  | .cons name p t, req => by
    have ih := schemaDeclTypeProps_snd t req
    unfold schemaDeclTypeProps
    cases hsd : SchemaDeclType p with
    | none =>
      simp only [JProps.toList, c5RequiredSum, List.map_cons, List.sum_cons,
        c5FieldContribution, hsd, Option.isSome_none, Bool.and_false, if_false]
      simpa [c5RequiredSum] using ih
    | some ft =>
      have hhead : c5FieldContribution name p req =
          if (req.contains name && p.dflt.isNone) = true then
            name.length + ft.MinSerializedSize + 4
          else 0 := by
        simp only [c5FieldContribution, hsd, Option.isSome_some, Bool.and_true]
      have htail : c5RequiredSum ((name, p) :: t.toList) req =
          c5FieldContribution name p req + c5RequiredSum t.toList req := by
        simp [c5RequiredSum]
      simp only [JProps.toList]
      rw [htail, hhead, ih]
      by_cases hc : (req.contains name && p.dflt.isNone) = true
      · rw [if_pos hc, if_pos hc]
        omega
      · rw [if_neg hc, if_neg hc]
        omega

/-- Every field the object-properties loop emits stems from a declared
property whose translation is non-nil. -/
theorem schemaDeclTypeProps_fields_mem : ∀ (props : JProps) (req : List String),
    ∀ x ∈ (schemaDeclTypeProps props req).1,
      ∃ psch dt, (x.1, psch) ∈ props.toList ∧ SchemaDeclType psch = some dt
  | .nil, _ => by
    intro x hx
    exact absurd hx (List.not_mem_nil x)
  | .cons name p t, req => by
    intro x hx
    have ih := schemaDeclTypeProps_fields_mem t req
    unfold schemaDeclTypeProps at hx
    cases hsd : SchemaDeclType p with
    | none =>
      rw [hsd] at hx
      obtain ⟨psch, dt, hm, hs⟩ := ih x hx
      exact ⟨psch, dt, List.mem_cons_of_mem _ hm, hs⟩
    | some ft =>
      rw [hsd] at hx
      simp only [Escape] at hx
      rcases List.mem_cons.mp hx with h | h
      · refine ⟨p, ft, ?_, hsd⟩
        rw [show x.1 = name by rw [h]]
        exact List.mem_cons_self _ _
      · obtain ⟨psch, dt, hm, hs⟩ := ih x h
        exact ⟨psch, dt, List.mem_cons_of_mem _ hm, hs⟩

/-- In an association list with distinct keys, a key determines its
value. -/
theorem assoc_key_unique (l : List (String × JSchema))
    (hnd : (l.map Prod.fst).Nodup) (k : String) (v1 v2 : JSchema)
    (h1 : (k, v1) ∈ l) (h2 : (k, v2) ∈ l) : v1 = v2 := by
  induction l with
  | nil => exact absurd h1 (List.not_mem_nil _)
  | cons a t ih =>
    simp only [List.map_cons, List.nodup_cons] at hnd
    rcases List.mem_cons.mp h1 with e1 | m1 <;> rcases List.mem_cons.mp h2 with e2 | m2
    · exact congrArg Prod.snd (e1.trans e2.symm)
    · exfalso
      apply hnd.1
      rw [show a.1 = k from congrArg Prod.fst e1.symm]
      exact List.mem_map_of_mem Prod.fst m2
    · exfalso
      apply hnd.1
      rw [show a.1 = k from congrArg Prod.fst e2.symm]
      exact List.mem_map_of_mem Prod.fst m1
    · exact ih hnd.2 m1 m2

/-- The object branch of the translator for an object schema whose
additional-properties pointer is absent or the FalseSchema sentinel. -/
theorem schemaDeclType_object_eq (fmt : String) (props : JProps) (ap : OAP) (items : OJS)
    (req : List String) (enum : List Value) (dflt : Option Value)
    (maxI maxL maxP : Option Nat) (oneOf anyOf : JSList) (notS : OJS)
    (hap : ap = OAP.noneAP ∨ ap = OAP.fls) :
    SchemaDeclType (.mk "object" fmt props ap items req enum dflt maxI maxL maxP oneOf anyOf notS) =
      some ((NewObjectType "object" (schemaDeclTypeProps props req).1).setMinSerializedSize
        (2 + (schemaDeclTypeProps props req).2)) := by
  rcases hap with h | h <;> subst h <;> simp only [SchemaDeclType]

/-- C5 as stated is false: an object schema with declared properties and a
permissive additional-properties pointer is not exposed at all, so no
DeclType with the claimed minimum size exists. -/
theorem schemaDeclType_object_claim_false : ¬ ClaimC5Prop := by
  intro h
  obtain ⟨d, hd, -, -⟩ := h
    (JSchema.mk "object" ""
      (.cons "a" (JSchema.mk "string" "" .nil .noneAP .noneJS [] [] none none none none .nil .nil .noneJS) .nil)
      .tru .noneJS ["a"] [] none none none none .nil .nil .noneJS)
    rfl (fun hx => JProps.noConfusion hx)
  rw [show SchemaDeclType
    (JSchema.mk "object" ""
      (.cons "a" (JSchema.mk "string" "" .nil .noneAP .noneJS [] [] none none none none .nil .nil .noneJS) .nil)
      .tru .noneJS ["a"] [] none none none none .nil .nil .noneJS) = none from rfl] at hd
  exact Option.noConfusion hd

/-- C5 amended: for every object schema with declared, distinctly named
properties whose additional-properties is absent or false, the translated
DeclType has minimum serialized size 2 plus, for every required property
lacking a default whose own translation is non-nil, the name length plus
the field minimum size plus 4; and every nil-translating property is
omitted from the resulting fields. -/
theorem schemaDeclType_object_minSize (s : JSchema)
    (htyp : s.typ = "object")
    (hap : s.additionalProperties.adaptor = none)
    (hprops : s.properties ≠ JProps.nil)
    (hnd : (s.properties.toList.map Prod.fst).Nodup) :
    ∃ d, SchemaDeclType s = some d ∧
      d.MinSerializedSize = 2 + c5RequiredSum s.properties.toList s.required ∧
      ∀ np ∈ s.properties.toList, SchemaDeclType np.2 = none → d.hasField np.1 = false := by
  obtain ⟨typ, fmt, props, ap, items, req, enum, dflt, maxI, maxL, maxP, oneOf, anyOf, notS⟩ := s
  simp only [JSchema.typ] at htyp
  simp only [JSchema.additionalProperties] at hap
  simp only [JSchema.properties] at hprops hnd ⊢
  simp only [JSchema.required]
  subst htyp
  have hap2 : ap = OAP.noneAP ∨ ap = OAP.fls := by
    cases ap with
    | noneAP => exact Or.inl rfl
    | fls => exact Or.inr rfl
    | tru => exact absurd hap (by simp [OAP.adaptor])
    | sch q => exact absurd hap (by simp [OAP.adaptor])
  refine ⟨_, schemaDeclType_object_eq fmt props ap items req enum dflt maxI maxL maxP oneOf anyOf notS hap2, ?_, ?_⟩
  · rw [minSize_setMinSerializedSize, schemaDeclTypeProps_snd]
  · intro np hnp hnone
    rw [Bool.eq_false_iff]
    intro hany
    simp only [DeclType.hasField, fieldsOf_setMinSerializedSize, NewObjectType,
      DeclType.fieldsOf, List.any_eq_true, decide_eq_true_eq] at hany
    obtain ⟨x, hx, hxeq⟩ := hany
    obtain ⟨psch, dt, hm, hs⟩ := schemaDeclTypeProps_fields_mem props req x hx
    rw [hxeq] at hm
    have := assoc_key_unique props.toList hnd np.1 psch np.2 hm
      (by rw [show (np.1, np.2) = np from rfl]; exact hnp)
    rw [this] at hs
    rw [hnone] at hs
    exact Option.noConfusion hs

/-- Witness for amended C5: a two-property object schema with a required
one-character string property and a required property translating to nil:
the minimum size evaluates to nine bytes and the nil-translating property
is omitted from the fields. -/
theorem schemaDeclType_object_minSize_witness :
    (∃ d, SchemaDeclType
        (JSchema.mk "object" ""
          (.cons "a" (JSchema.mk "string" "" .nil .noneAP .noneJS [] [] none none none none .nil .nil .noneJS)
            (.cons "b" (JSchema.mk "object" "" .nil .tru .noneJS [] [] none none none none .nil .nil .noneJS)
              .nil))
          .noneAP .noneJS ["a", "b"] [] none none none none .nil .nil .noneJS) = some d ∧
      d.MinSerializedSize = 2 + c5RequiredSum
        (JSchema.mk "object" ""
          (.cons "a" (JSchema.mk "string" "" .nil .noneAP .noneJS [] [] none none none none .nil .nil .noneJS)
            (.cons "b" (JSchema.mk "object" "" .nil .tru .noneJS [] [] none none none none .nil .nil .noneJS)
              .nil))
          .noneAP .noneJS ["a", "b"] [] none none none none .nil .nil .noneJS).properties.toList
        (JSchema.mk "object" ""
          (.cons "a" (JSchema.mk "string" "" .nil .noneAP .noneJS [] [] none none none none .nil .nil .noneJS)
            (.cons "b" (JSchema.mk "object" "" .nil .tru .noneJS [] [] none none none none .nil .nil .noneJS)
              .nil))
          .noneAP .noneJS ["a", "b"] [] none none none none .nil .nil .noneJS).required ∧
      ∀ np ∈ (JSchema.mk "object" ""
          (.cons "a" (JSchema.mk "string" "" .nil .noneAP .noneJS [] [] none none none none .nil .nil .noneJS)
            (.cons "b" (JSchema.mk "object" "" .nil .tru .noneJS [] [] none none none none .nil .nil .noneJS)
              .nil))
          .noneAP .noneJS ["a", "b"] [] none none none none .nil .nil .noneJS).properties.toList,
        SchemaDeclType np.2 = none → d.hasField np.1 = false) ∧
    (SchemaDeclType
        (JSchema.mk "object" ""
          (.cons "a" (JSchema.mk "string" "" .nil .noneAP .noneJS [] [] none none none none .nil .nil .noneJS)
            (.cons "b" (JSchema.mk "object" "" .nil .tru .noneJS [] [] none none none none .nil .nil .noneJS)
              .nil))
          .noneAP .noneJS ["a", "b"] [] none none none none .nil .nil .noneJS)).map
      DeclType.MinSerializedSize = some 9 :=
  ⟨schemaDeclType_object_minSize
    (JSchema.mk "object" ""
      (.cons "a" (JSchema.mk "string" "" .nil .noneAP .noneJS [] [] none none none none .nil .nil .noneJS)
        (.cons "b" (JSchema.mk "object" "" .nil .tru .noneJS [] [] none none none none .nil .nil .noneJS)
          .nil))
      .noneAP .noneJS ["a", "b"] [] none none none none .nil .nil .noneJS)
    rfl rfl (fun hx => JProps.noConfusion hx) (by decide), rfl⟩

/-! ## Claim C6 -/

/-- When the accumulated identifiers are distinct but adding the remaining
raw transformations would duplicate one, the collection loop fails with a
duplicate-identifier error for some raw identifier. -/
theorem collectTransformations_dup (raws : List RawTransformation) :
    ∀ (n : Nat) (acc : List GTransformation),
    (acc.map (fun t => t.meta.ID)).Nodup →
    ¬ (acc.map (fun t => t.meta.ID) ++ raws.map (fun r => r.meta.ID)).Nodup →
    ∃ id, id ∈ raws.map (fun r => r.meta.ID) ∧
      collectTransformations raws n acc = .error (.duplicateID id) := by
  induction raws with
  | nil =>
    intro n acc hacc hdup
    exact absurd (by simpa using hacc) hdup
  | cons r rest ih =>
    intro n acc hacc hdup
    unfold collectTransformations
    by_cases hmem : (acc.map (fun t => t.meta.ID)).contains r.meta.ID = true
    · refine ⟨r.meta.ID, by simp, ?_⟩
      rw [if_pos hmem]
    · have hnotmem : r.meta.ID ∉ acc.map (fun t => t.meta.ID) := by
        simpa using hmem
      have hacc2 : ((acc ++ [(⟨r.meta, r.vars, [], n⟩ : GTransformation)]).map
          (fun t : GTransformation => t.meta.ID)).Nodup := by
        simp only [List.map_append, List.map_cons, List.map_nil]
        simp [List.nodup_append, hacc, hnotmem]
      have hdup2 : ¬ (((acc ++ [(⟨r.meta, r.vars, [], n⟩ : GTransformation)]).map
          (fun t : GTransformation => t.meta.ID)) ++ rest.map (fun q => q.meta.ID)).Nodup := by
        intro hc
        apply hdup
        simp only [List.map_append, List.map_cons, List.map_nil, List.append_assoc] at hc ⊢
        simpa using hc
      obtain ⟨id, hid, hcol⟩ := ih (n + 1) (acc ++ [(⟨r.meta, r.vars, [], n⟩ : GTransformation)]) hacc2 hdup2
      refine ⟨id, by simp [List.mem_cons]; right; simpa using hid, ?_⟩
      rw [if_neg hmem]
      exact hcol

/-- C6: for every graph definition in which two transformations share an
identifier, the builder fails with a duplicate-identifier error; the
failure is independent of the dependency-graph construction, which is
universally quantified and never consulted. -/
theorem newTransferGraph_duplicate_id
    (naming : List GTransformation → Except BuildErr Unit)
    (buildDep : List GTransformation → Except BuildErr DAGm)
    (raws : List RawTransformation)
    (hdup : ¬ (raws.map (fun r => r.meta.ID)).Nodup) :
    ∃ id, id ∈ raws.map (fun r => r.meta.ID) ∧
      newTransferGraphWith naming buildDep raws = .error (.duplicateID id) := by
  obtain ⟨id, hid, hcol⟩ := collectTransformations_dup raws 0 [] (by simp) (by simpa using hdup)
  refine ⟨id, hid, ?_⟩
  unfold newTransferGraphWith
  rw [hcol]

/-- Witness for C6: two transformations sharing the identifier x fail the
build with the duplicate-identifier error, for an arbitrary graph
construction stage. -/
theorem newTransferGraph_duplicate_id_witness :
    ∃ id, id ∈ ([⟨⟨"x"⟩, []⟩, ⟨⟨"x"⟩, []⟩] : List RawTransformation).map (fun r => r.meta.ID) ∧
      newTransferGraphWith (fun _ => .ok ()) (fun _ => .ok DAGm.empty)
        [⟨⟨"x"⟩, []⟩, ⟨⟨"x"⟩, []⟩] = .error (.duplicateID id) :=
  newTransferGraph_duplicate_id (fun _ => .ok ()) (fun _ => .ok DAGm.empty)
    [⟨⟨"x"⟩, []⟩, ⟨⟨"x"⟩, []⟩] (by decide)

/-! ## Claim C2: ordering soundness of the topological sort -/

/-- The ordering loop only fails with the cycle error. -/
theorem topoLoop_error_cycle : ∀ (fuel : Nat) (emitted remaining : List String)
    (edges : List (String × String)) (err : BuildErr),
    topoLoop fuel emitted remaining edges = .error err → err = .cycleErr := by
  intro fuel
  induction fuel with
  | zero =>
    intro emitted remaining edges err h
    unfold topoLoop at h
    split at h
    · exact Except.noConfusion h
    · injection h with h2
      exact h2.symm
  | succ n ih =>
    intro emitted remaining edges err h
    unfold topoLoop at h
    split at h
    · exact Except.noConfusion h
    · split at h
      · injection h with h2
        exact h2.symm
      · exact ih _ _ _ _ h

/-- Soundness of the ordering loop: a successful run emits a permutation
of the vertices in which every edge's parent precedes its child. -/
theorem topoLoop_sound : ∀ (fuel : Nat) (emitted remaining : List String)
    (edges : List (String × String)) (verts : List String) (out : List String),
    topoLoop fuel emitted remaining edges = .ok out →
    List.Perm (emitted ++ remaining) verts →
    verts.Nodup →
    (∀ e ∈ edges, e.1 ∈ emitted → e.2 ∈ emitted ∧ emitted.indexOf e.2 < emitted.indexOf e.1) →
    List.Perm out verts ∧
    (∀ e ∈ edges, e.1 ∈ out → e.2 ∈ out ∧ out.indexOf e.2 < out.indexOf e.1) := by
  intro fuel
  induction fuel with
  | zero =>
    intro emitted remaining edges verts out h hperm hnd hinv
    unfold topoLoop at h
    split at h
    · injection h with h2
      subst h2
      have hre : remaining = [] := List.isEmpty_iff.mp (by assumption)
      subst hre
      rw [List.append_nil] at hperm
      exact ⟨hperm, hinv⟩
    · exact Except.noConfusion h
  | succ n ih =>
    intro emitted remaining edges verts out h hperm hnd hinv
    unfold topoLoop at h
    split at h
    · injection h with h2
      subst h2
      have hre : remaining = [] := List.isEmpty_iff.mp (by assumption)
      subst hre
      rw [List.append_nil] at hperm
      exact ⟨hperm, hinv⟩
    · split at h
      · exact Except.noConfusion h
      · rename_i v hfind
        have hv : v ∈ remaining := List.mem_of_find?_eq_some hfind
        have hpred := List.find?_some hfind
        have hpar : ∀ e ∈ edges, e.1 = v → e.2 ∈ emitted := by
          intro e he h1
          have := List.all_eq_true.mp hpred e he
          rcases Bool.or_eq_true_iff.mp this with hq | hq
          · exact absurd h1 (by simpa using hq)
          · simpa using hq
        have hndall : (emitted ++ remaining).Nodup := (hperm.nodup_iff).mpr hnd
        have hvnot : v ∉ emitted := by
          intro hc
          exact (List.disjoint_of_nodup_append hndall) hc hv
        have hp1 : List.Perm remaining (v :: remaining.erase v) := List.perm_cons_erase hv
        have hpnew : List.Perm ((emitted ++ [v]) ++ remaining.erase v) verts := by
          rw [List.append_assoc]
          exact (List.Perm.append_left emitted hp1.symm).trans hperm
        have hinvnew : ∀ e ∈ edges, e.1 ∈ emitted ++ [v] →
            e.2 ∈ emitted ++ [v] ∧
            (emitted ++ [v]).indexOf e.2 < (emitted ++ [v]).indexOf e.1 := by
          intro e he h1
          rcases List.mem_append.mp h1 with h1e | h1e
          · obtain ⟨h2e, hlt⟩ := hinv e he h1e
            refine ⟨List.mem_append_left _ h2e, ?_⟩
            rw [List.indexOf_append_of_mem h2e, List.indexOf_append_of_mem h1e]
            exact hlt
          · have h1v : e.1 = v := by simpa using h1e
            have h2e : e.2 ∈ emitted := hpar e he h1v
            refine ⟨List.mem_append_left _ h2e, ?_⟩
            rw [List.indexOf_append_of_mem h2e, h1v,
              List.indexOf_append_of_not_mem hvnot]
            simp only [List.indexOf_cons_self, Nat.add_zero]
            exact List.indexOf_lt_length.mpr h2e
        exact ih _ _ _ _ _ h hpnew hnd hinvnew

/-- A vertex order that respects every edge admits no dependency cycle. -/
theorem respects_no_cycle (out : List String) (edges : List (String × String))
    (hresp : ∀ e ∈ edges, e.1 ∈ out → e.2 ∈ out ∧ out.indexOf e.2 < out.indexOf e.1)
    (hbase : ∀ e ∈ edges, e.1 ∈ out)
    (R : String → String → Prop)
    (hR : ∀ c p, R c p → (c, p) ∈ edges)
    (v : String) (hcyc : Relation.TransGen R v v) : False := by
  have key : ∀ a b, Relation.TransGen R a b → out.indexOf b < out.indexOf a := by
    intro a b h
    induction h with
    | single hstep =>
      exact (hresp _ (hR _ _ hstep) (hbase _ (hR _ _ hstep))).2
    | tail hab hbc ih =>
      exact lt_trans (hresp _ (hR _ _ hbc) (hbase _ (hR _ _ hbc))).2 ih
  exact absurd (key v v hcyc) (lt_irrefl _)

/-! ## Claim C2: well-formedness of the built graph -/

/-- Vertex insertion preserves graph well-formedness. -/
theorem AddVertex_wf (g g2 : DAGm) (v : String) (n : Nat)
    (h : g.AddVertex v n = .ok g2) (hwf : DAGWellFormed g) : DAGWellFormed g2 := by
  unfold DAGm.AddVertex at h
  split at h
  · exact Except.noConfusion h
  · injection h with h2
    subst h2
    rename_i hnot
    constructor
    · have hvn : v ∉ g.ids := by simpa using hnot
      simp only [DAGm.ids, List.map_append, List.map_cons, List.map_nil]
      rw [List.nodup_append]
      refine ⟨hwf.1, List.nodup_singleton v, ?_⟩
      intro a ha hb
      have hav : a = v := by simpa using hb
      subst hav
      exact hvn ha
    · intro e he
      obtain ⟨h1, h2, h3⟩ := hwf.2 e he
      simp only [DAGm.ids, List.map_append] at h1 h2 ⊢
      exact ⟨List.mem_append_left _ h1, List.mem_append_left _ h2, h3⟩

/-- Edge insertion preserves graph well-formedness. -/
theorem AddEdge_wf (g g2 : DAGm) (a b : String)
    (h : g.AddEdge a b = .ok g2) (hwf : DAGWellFormed g) : DAGWellFormed g2 := by
  unfold DAGm.AddEdge at h
  split at h
  · exact Except.noConfusion h
  · split at h
    · exact Except.noConfusion h
    · split at h
      · exact Except.noConfusion h
      · split at h
        · injection h with h2
          subst h2
          exact hwf
        · injection h with h2
          subst h2
          rename_i hne hfa hfb _
          refine ⟨hwf.1, ?_⟩
          intro e he
          simp only [DAGm.ids] at hfa hfb ⊢
          rcases List.mem_append.mp he with he2 | he2
          · obtain ⟨h1, h2, h3⟩ := hwf.2 e he2
            exact ⟨h1, h2, h3⟩
          · have he3 : e = (a, b) := by simpa using he2
            subst he3
            exact ⟨by simpa using hfa, by simpa using hfb, hne⟩

/-- The vertex loop preserves graph well-formedness. -/
theorem addVerticesLoop_wf : ∀ (ts : List GTransformation) (g g2 : DAGm),
    addVerticesLoop ts g = .ok g2 → DAGWellFormed g → DAGWellFormed g2 := by
  intro ts
  induction ts with
  | nil =>
    intro g g2 h hwf
    injection h with h2
    subst h2
    exact hwf
  | cons t rest ih =>
    intro g g2 h hwf
    unfold addVerticesLoop at h
    split at h
    · exact Except.noConfusion h
    · rename_i g3 hg3
      exact ih g3 g2 h (AddVertex_wf g g3 t.meta.ID t.order hg3 hwf)

/-- The innermost edge loop preserves graph well-formedness. -/
theorem addEdgesForDeps_wf : ∀ (deps : List String) (child : String) (g g2 : DAGm),
    addEdgesForDeps deps child g = .ok g2 → DAGWellFormed g → DAGWellFormed g2 := by
  intro deps
  induction deps with
  | nil =>
    intro child g g2 h hwf
    injection h with h2
    subst h2
    exact hwf
  | cons d rest ih =>
    intro child g g2 h hwf
    unfold addEdgesForDeps at h
    split at h
    · exact Except.noConfusion h
    · rename_i g3 hg3
      exact ih child g3 g2 h (AddEdge_wf g g3 child d hg3 hwf)

/-- The per-expression edge loop preserves graph well-formedness. -/
theorem addEdgesForExprs_wf : ∀ (es : List GExpr) (allowed names : List String)
    (child : String) (g g2 : DAGm),
    addEdgesForExprs es allowed names child g = .ok g2 → DAGWellFormed g → DAGWellFormed g2 := by
  intro es
  induction es with
  | nil =>
    intro allowed names child g g2 h hwf
    injection h with h2
    subst h2
    exact hwf
  | cons e rest ih =>
    intro allowed names child g g2 h hwf
    unfold addEdgesForExprs at h
    split at h
    · exact Except.noConfusion h
    · split at h
      · exact Except.noConfusion h
      · rename_i deps _ g3 hg3
        exact ih allowed names child g3 g2 h (addEdgesForDeps_wf _ child g g3 hg3 hwf)

/-- The per-variable edge loop preserves graph well-formedness. -/
theorem addEdgesForFields_wf : ∀ (fs : List GField) (allowed names : List String)
    (child : String) (g g2 : DAGm),
    addEdgesForFields fs allowed names child g = .ok g2 → DAGWellFormed g → DAGWellFormed g2 := by
  intro fs
  induction fs with
  | nil =>
    intro allowed names child g g2 h hwf
    injection h with h2
    subst h2
    exact hwf
  | cons f rest ih =>
    intro allowed names child g g2 h hwf
    unfold addEdgesForFields at h
    split at h
    · exact Except.noConfusion h
    · rename_i g3 hg3
      exact ih allowed names child g3 g2 h (addEdgesForExprs_wf _ allowed names child g g3 hg3 hwf)

/-- The per-transformation edge loop preserves graph well-formedness. -/
theorem addEdgesLoop_wf : ∀ (ts : List GTransformation) (allowed names : List String)
    (g g2 : DAGm),
    addEdgesLoop ts allowed names g = .ok g2 → DAGWellFormed g → DAGWellFormed g2 := by
  intro ts
  induction ts with
  | nil =>
    intro allowed names g g2 h hwf
    injection h with h2
    subst h2
    exact hwf
  | cons t rest ih =>
    intro allowed names g g2 h hwf
    unfold addEdgesLoop at h
    split at h
    · exact Except.noConfusion h
    · rename_i g3 hg3
      exact ih allowed names g3 g2 h (addEdgesForFields_wf _ allowed names t.meta.ID g g3 hg3 hwf)

/-- A successfully built dependency graph is well-formed. -/
theorem buildDependencyGraph_wf (allowed : List String) (ts : List GTransformation)
    (g : DAGm) (h : buildDependencyGraph allowed ts = .ok g) : DAGWellFormed g := by
  unfold buildDependencyGraph at h
  split at h
  · exact Except.noConfusion h
  · rename_i g0 hg0
    have hwf0 : DAGWellFormed DAGm.empty := by
      constructor
      · simp [DAGm.empty, DAGm.ids]
      · intro e he
        exact absurd he (by simp [DAGm.empty])
    exact addEdgesLoop_wf ts allowed _ g0 g h (addVerticesLoop_wf ts DAGm.empty g0 hg0 hwf0)

/-- A successful topological sort of a well-formed graph is a permutation
of the vertices respecting every edge. -/
theorem topologicalSort_ok (g : DAGm) (out : List String)
    (h : g.TopologicalSort = .ok out) (hwf : DAGWellFormed g) :
    List.Perm out g.ids ∧ respectsEdges out g.edges := by
  have hsound := topoLoop_sound g.ids.length [] g.ids g.edges g.ids out h
    (by simp) hwf.1 (by intro e he h1; exact absurd h1 (List.not_mem_nil _))
  refine ⟨hsound.1, ?_⟩
  intro e he
  have h1 : e.1 ∈ out := (hsound.1.mem_iff).mpr (hwf.2 e he).1
  obtain ⟨h2, hlt⟩ := hsound.2 e he h1
  exact ⟨h2, h1, hlt⟩

/-! ## Claim C2: characterization of the built graph -/

/-- The identifiers of the enumerated transformations equal the raw
identifiers. -/
theorem enumFrom_ids : ∀ (n : Nat) (raws : List RawTransformation),
    (enumFrom n raws).map (fun t => t.meta.ID) = raws.map (fun r => r.meta.ID) := by
  intro n raws
  induction raws generalizing n with
  | nil => rfl
  | cons r rest ih =>
    simp only [enumFrom, List.map_cons]
    rw [ih]

/-- With distinct identifiers the collection loop succeeds and preserves
declaration order. -/
theorem collectTransformations_ok : ∀ (raws : List RawTransformation) (n : Nat)
    (acc : List GTransformation),
    ((acc.map (fun t => t.meta.ID)) ++ raws.map (fun r => r.meta.ID)).Nodup →
    collectTransformations raws n acc = .ok (acc ++ enumFrom n raws) := by
  intro raws
  induction raws with
  | nil =>
    intro n acc _
    simp [collectTransformations, enumFrom]
  | cons r rest ih =>
    intro n acc hnd
    unfold collectTransformations
    have hdisj := List.disjoint_of_nodup_append hnd
    have hmem : r.meta.ID ∉ acc.map (fun t => t.meta.ID) := by
      intro hc
      exact hdisj hc (by simp)
    rw [if_neg (by simpa using hmem)]
    have hnd2 : (((acc ++ [(⟨r.meta, r.vars, [], n⟩ : GTransformation)]).map
        (fun t => t.meta.ID)) ++ rest.map (fun q => q.meta.ID)).Nodup := by
      simp only [List.map_append, List.map_cons, List.map_nil, List.append_assoc]
      simpa using hnd
    rw [ih (n + 1) _ hnd2]
    simp [enumFrom, List.append_assoc]

/-- The vertex loop appends one vertex per transformation. -/
theorem addVerticesLoop_ok : ∀ (ts : List GTransformation) (g : DAGm),
    (g.ids ++ ts.map (fun t => t.meta.ID)).Nodup →
    addVerticesLoop ts g =
      .ok ⟨g.vertices ++ ts.map (fun t => (t.meta.ID, t.order)), g.edges⟩ := by
  intro ts
  induction ts with
  | nil =>
    intro g _
    simp [addVerticesLoop]
  | cons t rest ih =>
    intro g hnd
    unfold addVerticesLoop
    have hdisj := List.disjoint_of_nodup_append hnd
    have hmem : t.meta.ID ∉ g.ids := by
      intro hc
      exact hdisj hc (by simp)
    unfold DAGm.AddVertex
    rw [if_neg (by simpa using hmem)]
    have hnd2 : ((DAGm.mk (g.vertices ++ [(t.meta.ID, t.order)]) g.edges).ids ++
        rest.map (fun q => q.meta.ID)).Nodup := by
      simp only [DAGm.ids, List.map_append, List.map_cons, List.map_nil, List.append_assoc]
      simpa [DAGm.ids] using hnd
    show addVerticesLoop rest ⟨g.vertices ++ [(t.meta.ID, t.order)], g.edges⟩ = _
    rw [ih _ hnd2]
    simp [List.append_assoc]

/-- The innermost edge loop adds exactly the edges from the child to the
listed dependencies. -/
theorem addEdgesForDeps_ok : ∀ (deps : List String) (child : String) (g : DAGm),
    child ∈ g.ids →
    (∀ d ∈ deps, d ∈ g.ids ∧ d ≠ child) →
    ∃ g2, addEdgesForDeps deps child g = .ok g2 ∧ g2.vertices = g.vertices ∧
      (∀ x : String × String, x ∈ g2.edges ↔ x ∈ g.edges ∨ (x.1 = child ∧ x.2 ∈ deps)) := by
  intro deps
  induction deps with
  | nil =>
    intro child g _ _
    exact ⟨g, rfl, rfl, by simp⟩
  | cons d rest ih =>
    intro child g hchild hdeps
    obtain ⟨hdin, hdne⟩ := hdeps d (List.mem_cons_self _ _)
    unfold addEdgesForDeps
    unfold DAGm.AddEdge
    rw [if_neg (fun hc => hdne hc.symm), if_neg (by simpa using hchild),
      if_neg (by simpa using hdin)]
    by_cases hpresent : (child, d) ∈ g.edges
    · rw [if_pos (by simpa using hpresent)]
      obtain ⟨g2, hg2, hv, hiff⟩ := ih child g hchild
        (fun q hq => hdeps q (List.mem_cons_of_mem _ hq))
      refine ⟨g2, hg2, hv, ?_⟩
      intro x
      rw [hiff]
      constructor
      · rintro (hx | ⟨hx1, hx2⟩)
        · exact Or.inl hx
        · exact Or.inr ⟨hx1, List.mem_cons_of_mem _ hx2⟩
      · rintro (hx | ⟨hx1, hx2⟩)
        · exact Or.inl hx
        · rcases List.mem_cons.mp hx2 with he | he
          · refine Or.inl ?_
            have : x = (child, d) := by
              rw [Prod.ext_iff]
              exact ⟨hx1, he⟩
            rw [this]
            exact hpresent
          · exact Or.inr ⟨hx1, he⟩
    · rw [if_neg (by simpa using hpresent)]
      have hchild2 : child ∈ (DAGm.mk g.vertices (g.edges ++ [(child, d)])).ids := hchild
      obtain ⟨g2, hg2, hv, hiff⟩ := ih child (DAGm.mk g.vertices (g.edges ++ [(child, d)]))
        hchild2 (fun q hq => hdeps q (List.mem_cons_of_mem _ hq))
      refine ⟨g2, hg2, hv, ?_⟩
      intro x
      rw [hiff]
      simp only [List.mem_append, List.mem_cons, List.not_mem_nil, or_false,
        List.mem_singleton]
      constructor
      · rintro ((hx | hx) | ⟨hx1, hx2⟩)
        · exact Or.inl hx
        · exact Or.inr ⟨congrArg Prod.fst hx, Or.inl (congrArg Prod.snd hx)⟩
        · exact Or.inr ⟨hx1, Or.inr hx2⟩
      · rintro (hx | ⟨hx1, hx | hx⟩)
        · exact Or.inl (Or.inl hx)
        · refine Or.inl (Or.inr ?_)
          rw [Prod.ext_iff]
          exact ⟨hx1, hx⟩
        · exact Or.inr ⟨hx1, hx⟩

/-- Dependency extraction succeeds on an expression whose references are
all declared and whose calls are all permitted, returning exactly the
non-schema references. -/
theorem extractDependencies_clean_ok (allowed : List String) (e : GExpr) (names : List String)
    (h1 : ∀ r ∈ e.refs, names.contains r = true)
    (h2 : ∀ c ∈ e.calls, allowed.contains c = true) :
    ∃ deps isStatic, extractDependencies allowed e names = .ok (deps, isStatic) ∧
      (∀ d, d ∈ deps ↔ d ∈ e.refs ∧ d ≠ "schema") := by
  have hf1 : e.refs.filter (fun r => !names.contains r) = [] :=
    List.filter_eq_nil_iff.mpr (by intro a ha; simpa using h1 a ha)
  have hf2 : e.calls.filter (fun c => !allowed.contains c) = [] :=
    List.filter_eq_nil_iff.mpr (by intro a ha; simpa using h2 a ha)
  have hfull : e.refs.filter (fun r => names.contains r) = e.refs :=
    List.filter_eq_self.mpr h1
  unfold extractDependencies Inspect
  rw [if_neg (by simpa using hf1), if_neg (by simpa using hf2)]
  refine ⟨_, _, rfl, ?_⟩
  intro d
  simp only [hfull]
  rw [collectDeps_mem]
  simp

/-- The per-expression loop adds exactly the edges from the child to the
non-schema references of its expressions. -/
theorem addEdgesForExprs_ok : ∀ (es : List GExpr) (allowed names : List String)
    (child : String) (g : DAGm),
    child ∈ g.ids →
    (∀ r, r ∈ names → r ≠ "schema" → r ∈ g.ids) →
    (∀ e ∈ es, (∀ r ∈ e.refs, names.contains r = true) ∧
      (∀ c ∈ e.calls, allowed.contains c = true) ∧ child ∉ e.refs) →
    ∃ g2, addEdgesForExprs es allowed names child g = .ok g2 ∧ g2.vertices = g.vertices ∧
      (∀ x : String × String, x ∈ g2.edges ↔ x ∈ g.edges ∨
        (x.1 = child ∧ ∃ e ∈ es, x.2 ∈ e.refs ∧ x.2 ≠ "schema")) := by
  intro es
  induction es with
  | nil =>
    intro allowed names child g _ _ _
    exact ⟨g, rfl, rfl, by simp⟩
  | cons e rest ih =>
    intro allowed names child g hchild hnames hclean
    obtain ⟨he1, he2, he3⟩ := hclean e (List.mem_cons_self _ _)
    obtain ⟨deps, isSt, hex, hdm⟩ := extractDependencies_clean_ok allowed e names he1 he2
    have hdepcond : ∀ d ∈ deps, d ∈ g.ids ∧ d ≠ child := by
      intro d hd
      obtain ⟨hdr, hds⟩ := (hdm d).mp hd
      refine ⟨hnames d (by simpa using he1 d hdr) hds, ?_⟩
      intro hc
      exact he3 (hc ▸ hdr)
    obtain ⟨g3, hg3, hv3, hiff3⟩ := addEdgesForDeps_ok deps child g hchild hdepcond
    have hchild3 : child ∈ g3.ids := by
      simp only [DAGm.ids, hv3]
      exact hchild
    have hnames3 : ∀ r, r ∈ names → r ≠ "schema" → r ∈ g3.ids := by
      intro r hr hrs
      simp only [DAGm.ids, hv3]
      exact hnames r hr hrs
    obtain ⟨g2, hg2, hv2, hiff2⟩ := ih allowed names child g3 hchild3 hnames3
      (fun q hq => hclean q (List.mem_cons_of_mem _ hq))
    have hstep : addEdgesForExprs (e :: rest) allowed names child g =
        addEdgesForExprs rest allowed names child g3 := by
      conv_lhs => unfold addEdgesForExprs
      rw [hex]
      show (match addEdgesForDeps deps child g with
        | Except.error err => (Except.error err : Except BuildErr DAGm)
        | Except.ok g4 => addEdgesForExprs rest allowed names child g4) = _
      rw [hg3]
    refine ⟨g2, by rw [hstep]; exact hg2, by rw [hv2, hv3], ?_⟩
    intro x
    rw [hiff2 x, hiff3 x]
    constructor
    · rintro ((hx | ⟨hx1, hx2⟩) | ⟨hx1, e2, he2m, hx2⟩)
      · exact Or.inl hx
      · obtain ⟨hr, hs⟩ := (hdm x.2).mp hx2
        exact Or.inr ⟨hx1, e, List.mem_cons_self _ _, hr, hs⟩
      · exact Or.inr ⟨hx1, e2, List.mem_cons_of_mem _ he2m, hx2⟩
    · rintro (hx | ⟨hx1, e2, he2m, hx2, hx3⟩)
      · exact Or.inl (Or.inl hx)
      · rcases List.mem_cons.mp he2m with hee | hee
        · subst hee
          exact Or.inl (Or.inr ⟨hx1, (hdm x.2).mpr ⟨hx2, hx3⟩⟩)
        · exact Or.inr ⟨hx1, e2, hee, hx2, hx3⟩

/-- The per-variable loop adds exactly the edges from the child to the
non-schema references of its variables' expressions. -/
theorem addEdgesForFields_ok : ∀ (fs : List GField) (allowed names : List String)
    (child : String) (g : DAGm),
    child ∈ g.ids →
    (∀ r, r ∈ names → r ≠ "schema" → r ∈ g.ids) →
    (∀ f ∈ fs, ∀ e ∈ f.Expressions, (∀ r ∈ e.refs, names.contains r = true) ∧
      (∀ c ∈ e.calls, allowed.contains c = true) ∧ child ∉ e.refs) →
    ∃ g2, addEdgesForFields fs allowed names child g = .ok g2 ∧ g2.vertices = g.vertices ∧
      (∀ x : String × String, x ∈ g2.edges ↔ x ∈ g.edges ∨
        (x.1 = child ∧ ∃ f ∈ fs, ∃ e ∈ f.Expressions, x.2 ∈ e.refs ∧ x.2 ≠ "schema")) := by
  intro fs
  induction fs with
  | nil =>
    intro allowed names child g _ _ _
    exact ⟨g, rfl, rfl, by simp⟩
  | cons f rest ih =>
    intro allowed names child g hchild hnames hclean
    obtain ⟨g3, hg3, hv3, hiff3⟩ := addEdgesForExprs_ok f.Expressions allowed names child g
      hchild hnames (hclean f (List.mem_cons_self _ _))
    have hchild3 : child ∈ g3.ids := by
      simp only [DAGm.ids, hv3]
      exact hchild
    have hnames3 : ∀ r, r ∈ names → r ≠ "schema" → r ∈ g3.ids := by
      intro r hr hrs
      simp only [DAGm.ids, hv3]
      exact hnames r hr hrs
    obtain ⟨g2, hg2, hv2, hiff2⟩ := ih allowed names child g3 hchild3 hnames3
      (fun q hq => hclean q (List.mem_cons_of_mem _ hq))
    have hstep : addEdgesForFields (f :: rest) allowed names child g =
        addEdgesForFields rest allowed names child g3 := by
      conv_lhs => unfold addEdgesForFields
      rw [hg3]
    refine ⟨g2, by rw [hstep]; exact hg2, by rw [hv2, hv3], ?_⟩
    intro x
    rw [hiff2 x, hiff3 x]
    constructor
    · rintro ((hx | ⟨hx1, e2, he2m, hx2⟩) | ⟨hx1, f2, hf2m, e2, he2m, hx2⟩)
      · exact Or.inl hx
      · exact Or.inr ⟨hx1, f, List.mem_cons_self _ _, e2, he2m, hx2⟩
      · exact Or.inr ⟨hx1, f2, List.mem_cons_of_mem _ hf2m, e2, he2m, hx2⟩
    · rintro (hx | ⟨hx1, f2, hf2m, e2, he2m, hx2⟩)
      · exact Or.inl (Or.inl hx)
      · rcases List.mem_cons.mp hf2m with hff | hff
        · subst hff
          exact Or.inl (Or.inr ⟨hx1, e2, he2m, hx2⟩)
        · exact Or.inr ⟨hx1, f2, hff, e2, he2m, hx2⟩

/-- The per-transformation loop adds exactly the dependency edges of every
transformation. -/
theorem addEdgesLoop_ok : ∀ (ts : List GTransformation) (allowed names : List String)
    (g : DAGm),
    (∀ t ∈ ts, t.meta.ID ∈ g.ids) →
    (∀ r, r ∈ names → r ≠ "schema" → r ∈ g.ids) →
    (∀ t ∈ ts, ∀ f ∈ t.vars, ∀ e ∈ f.Expressions, (∀ r ∈ e.refs, names.contains r = true) ∧
      (∀ c ∈ e.calls, allowed.contains c = true) ∧ t.meta.ID ∉ e.refs) →
    ∃ g2, addEdgesLoop ts allowed names g = .ok g2 ∧ g2.vertices = g.vertices ∧
      (∀ x : String × String, x ∈ g2.edges ↔ x ∈ g.edges ∨
        ∃ t ∈ ts, x.1 = t.meta.ID ∧ ∃ f ∈ t.vars, ∃ e ∈ f.Expressions,
          x.2 ∈ e.refs ∧ x.2 ≠ "schema") := by
  intro ts
  induction ts with
  | nil =>
    intro allowed names g _ _ _
    exact ⟨g, rfl, rfl, by simp⟩
  | cons t rest ih =>
    intro allowed names g hin hnames hclean
    obtain ⟨g3, hg3, hv3, hiff3⟩ := addEdgesForFields_ok t.vars allowed names t.meta.ID g
      (hin t (List.mem_cons_self _ _)) hnames (hclean t (List.mem_cons_self _ _))
    have hin3 : ∀ q ∈ rest, q.meta.ID ∈ g3.ids := by
      intro q hq
      simp only [DAGm.ids, hv3]
      exact hin q (List.mem_cons_of_mem _ hq)
    have hnames3 : ∀ r, r ∈ names → r ≠ "schema" → r ∈ g3.ids := by
      intro r hr hrs
      simp only [DAGm.ids, hv3]
      exact hnames r hr hrs
    obtain ⟨g2, hg2, hv2, hiff2⟩ := ih allowed names g3 hin3 hnames3
      (fun q hq => hclean q (List.mem_cons_of_mem _ hq))
    have hstep : addEdgesLoop (t :: rest) allowed names g =
        addEdgesLoop rest allowed names g3 := by
      conv_lhs => unfold addEdgesLoop
      rw [hg3]
    refine ⟨g2, by rw [hstep]; exact hg2, by rw [hv2, hv3], ?_⟩
    intro x
    rw [hiff2 x, hiff3 x]
    constructor
    · rintro ((hx | ⟨hx1, rest2⟩) | ⟨t2, ht2m, hx1, rest2⟩)
      · exact Or.inl hx
      · exact Or.inr ⟨t, List.mem_cons_self _ _, hx1, rest2⟩
      · exact Or.inr ⟨t2, List.mem_cons_of_mem _ ht2m, hx1, rest2⟩
    · rintro (hx | ⟨t2, ht2m, hx1, rest2⟩)
      · exact Or.inl (Or.inl hx)
      · rcases List.mem_cons.mp ht2m with htt | htt
        · subst htt
          exact Or.inl (Or.inr ⟨hx1, rest2⟩)
        · exact Or.inr ⟨t2, htt, hx1, rest2⟩

/-- Characterization of a successfully built dependency graph: its
vertices are the transformation identifiers and its edges are exactly the
extracted dependency relation. -/
theorem buildDependencyGraph_ok (allowed : List String) (ts : List GTransformation)
    (hnd : (ts.map (fun t => t.meta.ID)).Nodup)
    (hclean : ∀ t ∈ ts, ∀ f ∈ t.vars, ∀ e ∈ f.Expressions,
      (∀ r ∈ e.refs, ((ts.map (fun q => q.meta.ID)) ++ ["schema"]).contains r = true) ∧
      (∀ c ∈ e.calls, allowed.contains c = true) ∧ t.meta.ID ∉ e.refs) :
    ∃ g, buildDependencyGraph allowed ts = .ok g ∧
      g.ids = ts.map (fun t => t.meta.ID) ∧
      (∀ x : String × String, x ∈ g.edges ↔ depRel ts x.1 x.2) := by
  have hv := addVerticesLoop_ok ts DAGm.empty (by simpa [DAGm.empty, DAGm.ids] using hnd)
  have hids0 : (DAGm.mk (ts.map (fun t => (t.meta.ID, t.order))) []).ids =
      ts.map (fun t => t.meta.ID) := by
    simp [DAGm.ids, List.map_map, Function.comp]
  obtain ⟨g, hg, hvg, hiffg⟩ := addEdgesLoop_ok ts allowed
    ((ts.map (fun q => q.meta.ID)) ++ ["schema"])
    (DAGm.mk (ts.map (fun t => (t.meta.ID, t.order))) [])
    (by
      intro t ht
      rw [hids0]
      exact List.mem_map_of_mem _ ht)
    (by
      intro r hr hrs
      rw [hids0]
      rcases List.mem_append.mp hr with hh | hh
      · exact hh
      · exact absurd (by simpa using hh) hrs)
    hclean
  refine ⟨g, ?_, ?_, ?_⟩
  · unfold buildDependencyGraph
    rw [show addVerticesLoop ts DAGm.empty =
      .ok (DAGm.mk (ts.map (fun t => (t.meta.ID, t.order))) []) by
        rw [hv]
        simp [DAGm.empty]]
    exact hg
  · simp only [DAGm.ids, hvg]
    simp only [DAGm.ids] at hids0
    exact hids0
  · intro x
    rw [hiffg x]
    unfold depRel
    constructor
    · rintro (hx | ⟨t, ht, hx1, f, hf, e, he, hx2, hx3⟩)
      · exact absurd hx (by simp)
      · exact ⟨t, ht, hx1.symm, f, hf, e, he, hx2, hx3⟩
    · rintro ⟨t, ht, hx1, f, hf, e, he, hx2, hx3⟩
      exact Or.inr ⟨t, ht, hx1.symm, f, hf, e, he, hx2, hx3⟩

/-- C2: the builder never returns an order violating an edge: whenever the
graph builder succeeds, every edge's parent precedes its child in the
returned topological order; and for every well-formed input whose
extracted dependency relation contains a cycle, the builder fails with the
cycle error, returning neither a graph nor an order. -/
theorem newTransferGraph_order_and_cycles :
    (∀ (naming : List GTransformation → Except BuildErr Unit) (allowed : List String)
        (raws : List RawTransformation) (g : GraphResult),
      newTransferGraph naming allowed raws = .ok g →
      respectsEdges g.TopologicalOrder g.DAG.edges) ∧
    (∀ (naming : List GTransformation → Except BuildErr Unit) (allowed : List String)
        (raws : List RawTransformation),
      (raws.map (fun r => r.meta.ID)).Nodup →
      naming (enumFrom 0 raws) = .ok () →
      (∀ t ∈ enumFrom 0 raws, ∀ f ∈ t.vars, ∀ e ∈ f.Expressions,
        (∀ r ∈ e.refs,
          (((enumFrom 0 raws).map (fun q => q.meta.ID)) ++ ["schema"]).contains r = true) ∧
        (∀ c ∈ e.calls, allowed.contains c = true) ∧ t.meta.ID ∉ e.refs) →
      (∃ v, Relation.TransGen (depRel (enumFrom 0 raws)) v v) →
      newTransferGraph naming allowed raws = .error .cycleErr) := by
  constructor
  · intro naming allowed raws g h
    unfold newTransferGraph newTransferGraphWith at h
    split at h
    · exact Except.noConfusion h
    · rename_i ts hcol
      split at h
      · exact Except.noConfusion h
      · rename_i u hnaming
        split at h
        · exact Except.noConfusion h
        · rename_i dag hdag
          split at h
          · exact Except.noConfusion h
          · rename_i order horder
            split at h
            · exact Except.noConfusion h
            · injection h with h2
              subst h2
              have hwf := buildDependencyGraph_wf allowed ts dag hdag
              exact (topologicalSort_ok dag order horder hwf).2
  · intro naming allowed raws hnodup hnaming hclean hcyc
    have hcol : collectTransformations raws 0 [] = .ok (enumFrom 0 raws) := by
      have := collectTransformations_ok raws 0 [] (by simpa using hnodup)
      simpa using this
    have hnd2 : ((enumFrom 0 raws).map (fun t => t.meta.ID)).Nodup := by
      rw [enumFrom_ids]
      exact hnodup
    obtain ⟨G, hG, hids, hedges⟩ :=
      buildDependencyGraph_ok allowed (enumFrom 0 raws) hnd2 hclean
    have hwf : DAGWellFormed G := buildDependencyGraph_wf allowed _ G hG
    obtain ⟨v, hv⟩ := hcyc
    have htopo : G.TopologicalSort = .error .cycleErr := by
      cases hres : G.TopologicalSort with
      | ok out =>
        exfalso
        obtain ⟨hperm, hresp⟩ := topologicalSort_ok G out hres hwf
        exact respects_no_cycle out G.edges
          (fun e he _ => ⟨(hresp e he).1, (hresp e he).2.2⟩)
          (fun e he => (hresp e he).2.1)
          (depRel (enumFrom 0 raws))
          (fun c p hcp => (hedges (c, p)).mpr hcp)
          v hv
      | error err =>
        have hcyc2 : err = BuildErr.cycleErr := topoLoop_error_cycle _ _ _ _ err (by
          unfold DAGm.TopologicalSort at hres
          exact hres)
        rw [hcyc2]
    unfold newTransferGraph newTransferGraphWith
    simp only [hcol, hnaming, hG, htopo]

/-- Witness for C2: a two-node chain builds successfully and its order
respects the single edge; the two-node mutual reference fails with the
cycle error. -/
theorem newTransferGraph_order_and_cycles_witness :
    respectsEdges
      (GraphResult.mk
        ⟨[("download1", 0), ("download2", 1)], [("download2", "download1")]⟩
        [⟨⟨"download1"⟩, [], [], 0⟩,
         ⟨⟨"download2"⟩,
          [⟨.static, [⟨"download1.spec.component", ["download1"], [], some .string⟩],
            .string, "spec.component"⟩], [], 1⟩]
        ["download1", "download2"]).TopologicalOrder
      (GraphResult.mk
        ⟨[("download1", 0), ("download2", 1)], [("download2", "download1")]⟩
        [⟨⟨"download1"⟩, [], [], 0⟩,
         ⟨⟨"download2"⟩,
          [⟨.static, [⟨"download1.spec.component", ["download1"], [], some .string⟩],
            .string, "spec.component"⟩], [], 1⟩]
        ["download1", "download2"]).DAG.edges ∧
    newTransferGraph (fun _ => .ok ()) []
      [⟨⟨"A"⟩, [⟨.static, [⟨"B.spec.component", ["B"], [], some .string⟩],
          .string, "spec.component"⟩]⟩,
       ⟨⟨"B"⟩, [⟨.static, [⟨"A.spec.component", ["A"], [], some .string⟩],
          .string, "spec.component"⟩]⟩] = .error .cycleErr := by
  constructor
  · exact newTransferGraph_order_and_cycles.1 (fun _ => .ok ()) []
      [⟨⟨"download1"⟩, []⟩,
       ⟨⟨"download2"⟩,
        [⟨.static, [⟨"download1.spec.component", ["download1"], [], some .string⟩],
          .string, "spec.component"⟩]⟩]
      (GraphResult.mk
        ⟨[("download1", 0), ("download2", 1)], [("download2", "download1")]⟩
        [⟨⟨"download1"⟩, [], [], 0⟩,
         ⟨⟨"download2"⟩,
          [⟨.static, [⟨"download1.spec.component", ["download1"], [], some .string⟩],
            .string, "spec.component"⟩], [], 1⟩]
        ["download1", "download2"]) rfl
  · have hAB : depRel (enumFrom 0
        [⟨⟨"A"⟩, [⟨.static, [⟨"B.spec.component", ["B"], [], some .string⟩],
            .string, "spec.component"⟩]⟩,
         ⟨⟨"B"⟩, [⟨.static, [⟨"A.spec.component", ["A"], [], some .string⟩],
            .string, "spec.component"⟩]⟩]) "A" "B" := by
      unfold depRel
      decide
    have hBA : depRel (enumFrom 0
        [⟨⟨"A"⟩, [⟨.static, [⟨"B.spec.component", ["B"], [], some .string⟩],
            .string, "spec.component"⟩]⟩,
         ⟨⟨"B"⟩, [⟨.static, [⟨"A.spec.component", ["A"], [], some .string⟩],
            .string, "spec.component"⟩]⟩]) "B" "A" := by
      unfold depRel
      decide
    exact newTransferGraph_order_and_cycles.2 (fun _ => .ok ()) []
      [⟨⟨"A"⟩, [⟨.static, [⟨"B.spec.component", ["B"], [], some .string⟩],
          .string, "spec.component"⟩]⟩,
       ⟨⟨"B"⟩, [⟨.static, [⟨"A.spec.component", ["A"], [], some .string⟩],
          .string, "spec.component"⟩]⟩]
      (by decide) rfl (by decide)
      ⟨"A", Relation.TransGen.head hAB (Relation.TransGen.single hBA)⟩
